import Mathlib

/-!
Verification of the ipcgen IDL compiler core (lexer, parser, type system,
CLI write loop) against its specification.  The definitions below are a
shallow embedding of `tools/ipcgen/lexer.py`, `tools/ipcgen/parser.py`,
`tools/ipcgen/types.py` and the artifact write loop of
`tools/ipcgen/__main__.py`.
-/

namespace Ipcgen

/-- Token kinds, mirroring TOK_KEYWORD .. TOK_EOF in lexer.py. -/
inductive TokKind where
  | keyword
  | ident
  | number
  | symbol
  | attr
  | eof
deriving DecidableEq, Repr

/-- A lexer token: kind, text value and 1-based source line. -/
structure Token where
  kind : TokKind
  value : String
  line : Nat
deriving DecidableEq, Repr

/-- Errors raised by the pipeline.  Each constructor corresponds to one
`raise SyntaxError(...)` site in lexer.py / parser.py, carrying the data
interpolated into the message there.  `indexOutOfRange` models a Python
`IndexError` from reading past the token list (not a `SyntaxError`), and
`outOfFuel` is an artifact of the fuel-based encoding of the loops. -/
inductive PError where
  | unterminatedComment (line : Nat)
  | unterminatedAttribute (line : Nat)
  | unexpectedChar (line : Nat) (c : Char)
  | expectedKind (line : Nat) (kind : TokKind) (want : Option String) (gotKind : TokKind) (gotVal : String)
  | expectedValue (line : Nat) (want : String) (gotVal : String)
  | expectedTopLevel (line : Nat) (gotVal : String)
  | noServiceBlock
  | serviceNameMismatch (line : Nat) (newName : String) (oldName : String)
  | notificationsNameMismatch (line : Nat) (newName : String) (oldName : String)
  | typeAlreadyDefined (line : Nat) (name : String)
  | unknownType (line : Nat) (name : String)
  | arraySizeTooSmall (line : Nat)
  | stringNeedsSize (line : Nat)
  | structHasNoFields (line : Nat) (name : String)
  | expectedMethodAttr (line : Nat) (attrText : String)
  | expectedNotifyAttr (line : Nat) (attrText : String)
  | expectedInOut (line : Nat) (attrText : String)
  | notificationParamNotIn (line : Nat)
  | indexOutOfRange
  | outOfFuel
deriving DecidableEq, Repr

/-- The source line carried by an error, when it carries one. -/
def PError.lineOf : PError → Option Nat
  | .unterminatedComment l => some l
  | .unterminatedAttribute l => some l
  | .unexpectedChar l _ => some l
  | .expectedKind l _ _ _ _ => some l
  | .expectedValue l _ _ => some l
  | .expectedTopLevel l _ => some l
  | .noServiceBlock => none
  | .serviceNameMismatch l _ _ => some l
  | .notificationsNameMismatch l _ _ => some l
  | .typeAlreadyDefined l _ => some l
  | .unknownType l _ => some l
  | .arraySizeTooSmall l => some l
  | .stringNeedsSize l => some l
  | .structHasNoFields l _ => some l
  | .expectedMethodAttr l _ => some l
  | .expectedNotifyAttr l _ => some l
  | .expectedInOut l _ => some l
  | .notificationParamNotIn l => some l
  | .indexOutOfRange => none
  | .outOfFuel => none

-- ── types.py ─────────────────────────────────────────────────────────

/-- TYPE_MAP from types.py: IDL type name to C++ type name. -/
def TYPE_MAP : List (String × String) :=
  [("uint8", "uint8_t"), ("uint16", "uint16_t"), ("uint32", "uint32_t"),
   ("uint64", "uint64_t"), ("int8", "int8_t"), ("int16", "int16_t"),
   ("int32", "int32_t"), ("int64", "int64_t"), ("float32", "float"),
   ("float64", "double"), ("bool", "bool"), ("string", "char")]

/-- The built-in primitive IDL type names (the keys of TYPE_MAP). -/
def builtinTypes : List String := TYPE_MAP.map Prod.fst

/-- UTF-8 encoding of one Unicode code point, as byte values. -/
def utf8EncodeChar (n : Nat) : List Nat :=
  if n < 0x80 then [n]
  else if n < 0x800 then [0xC0 + n / 64, 0x80 + n % 64]
  else if n < 0x10000 then [0xE0 + n / 4096, 0x80 + (n / 64) % 64, 0x80 + n % 64]
  else [0xF0 + n / 0x40000, 0x80 + (n / 4096) % 64, 0x80 + (n / 64) % 64, 0x80 + n % 64]

/-- The bytes of the UTF-8 encoding of a string (`s.encode("utf-8")`). -/
def utf8Bytes (s : String) : List Nat :=
  (s.data.map (fun c => utf8EncodeChar c.toNat)).flatten

/-- fnv1a_32 from types.py: `h = 0x811c9dc5`, then for each byte
`h ^= b; h = (h * 0x01000193) & 0xFFFFFFFF`. -/
def fnv1a_32 (s : String) : Nat :=
  (utf8Bytes s).foldl (fun h b => ((h ^^^ b) * 0x01000193) % 4294967296) 0x811c9dc5

/-- Reference FNV-1a-32 accumulator recursion, written from the spec's
words: start at the offset basis and, for each byte in order, XOR the
accumulator with the byte and multiply by the prime modulo 2^32. -/
def fnv1aRefStep : Nat → List Nat → Nat
  | h, [] => h
  | h, b :: bs => fnv1aRefStep (((h ^^^ b) * 0x01000193) % 2 ^ 32) bs

-- ── lexer.py ─────────────────────────────────────────────────────────

/-- Python `str.strip()` / regex `\s` whitespace set. -/
def isPySpace (c : Char) : Bool :=
  c = ' ' || c = '\t' || c = '\n' || c = '\r' || c = '\x0b' || c = '\x0c'

/-- Strip leading and trailing whitespace, as Python `str.strip()`. -/
def pyStripChars (cs : List Char) : List Char :=
  ((cs.dropWhile isPySpace).reverse.dropWhile isPySpace).reverse

/-- Python `str.strip()` on a string value. -/
def pyStrip (s : String) : String := (pyStripChars s.data).asString

/-- Python `str.isdigit()` (ASCII): nonempty and all digits. -/
def isDigitStr (s : String) : Bool := !s.data.isEmpty && s.data.all Char.isDigit

/-- Python `int()` of a digit string. -/
def natOfDigits (cs : List Char) : Nat :=
  cs.foldl (fun n c => 10 * n + (c.toNat - 48)) 0

/-- Python `int()` on a string value. -/
def strToNat (s : String) : Nat := natOfDigits s.data

/-- The reserved words of lexer.py (KEYWORDS). -/
def KEYWORDS : List String :=
  ["service", "notifications", "int", "void", "enum", "struct"]

/-- The single-character symbols recognized by lexer.py. -/
def symbolChars : List Char := ['\x7b', '\x7d', '(', ')', ';', ',', '*', '=']

/-- Scan for the closing `*/` of a block comment (`text.find("*/", i+2)`),
returning the number of newlines inside and the text after `*/`. -/
def findBlockEnd (cs : List Char) : Option (Nat × List Char) :=
  match cs with
  | [] => none
  | c :: rest =>
    if c = '*' ∧ rest.head? = some '/' then some (0, rest.tail)
    else if c = '\n' then (findBlockEnd rest).map (fun p => (p.1 + 1, p.2))
    else findBlockEnd rest

/-- Scan for the closing `]` of an attribute (`text.find("]", i)`),
returning the chars before it and the text after it. -/
def splitAtRBracket (cs : List Char) : Option (List Char × List Char) :=
  match cs with
  | [] => none
  | c :: rest =>
    if c = ']' then some ([], rest)
    else (splitAtRBracket rest).map (fun p => (c :: p.1, p.2))

/-- Python `text[i].isalpha() or text[i] == "_"` — identifier start. -/
def identStartChar (c : Char) : Bool := c.isAlpha || c = '_'

/-- Python `text[j].isalnum() or text[j] == "_"` — identifier body. -/
def identChar (c : Char) : Bool := c.isAlphanum || c = '_'

/-- The main scanning loop of `tokenize()` in lexer.py.  `fuel` is an
artifact of the encoding; every iteration of the Python loop advances
`i` by at least one character, so `cs.length + 1` fuel always suffices
(proved below). -/
def tokenizeGo (fuel : Nat) (cs : List Char) (line : Nat) (acc : List Token) :
    Except PError (List Token) :=
  match fuel with
  | 0 => .error .outOfFuel
  | fuel + 1 =>
    match cs with
    | [] => .ok (acc ++ [⟨.eof, "", line⟩])
    | c :: rest =>
      if c = '\n' then tokenizeGo fuel rest (line + 1) acc
      else if c = ' ' ∨ c = '\t' ∨ c = '\r' then tokenizeGo fuel rest line acc
      else if c = '/' ∧ rest.head? = some '/' then
        tokenizeGo fuel (rest.dropWhile (fun d => d ≠ '\n')) line acc
      else if c = '/' ∧ rest.head? = some '*' then
        match findBlockEnd rest.tail with
        | none => .error (.unterminatedComment line)
        | some (k, rest2) => tokenizeGo fuel rest2 (line + k) acc
      else if c = '[' then
        match splitAtRBracket rest with
        | none => .error (.unterminatedAttribute line)
        | some (inner, rest2) =>
          tokenizeGo fuel rest2 line (acc ++ [⟨.attr, (pyStripChars inner).asString, line⟩])
      else if c ∈ symbolChars then
        tokenizeGo fuel rest line (acc ++ [⟨.symbol, String.mk [c], line⟩])
      else if c.isDigit then
        tokenizeGo fuel (rest.dropWhile Char.isDigit) line
          (acc ++ [⟨.number, (c :: rest.takeWhile Char.isDigit).asString, line⟩])
      else if identStartChar c then
        tokenizeGo fuel (rest.dropWhile identChar) line
          (acc ++ [⟨if (c :: rest.takeWhile identChar).asString ∈ KEYWORDS then .keyword
                    else .ident,
                   (c :: rest.takeWhile identChar).asString, line⟩])
      else .error (.unexpectedChar line c)

/-- tokenize from lexer.py: convert IDL source text into a token list. -/
def tokenize (text : String) : Except PError (List Token) :=
  tokenizeGo (text.data.length + 1) text.data 1 []

-- ── parser.py: AST nodes ─────────────────────────────────────────────

/-- EnumValue from parser.py. -/
structure EnumValue where
  name : String
  value : Nat
deriving DecidableEq, Repr

/-- EnumDef from parser.py. -/
structure EnumDef where
  name : String
  values : List EnumValue
deriving DecidableEq, Repr

/-- StructField from parser.py. -/
structure StructField where
  type_name : String
  name : String
  array_size : Option Nat := none
deriving DecidableEq, Repr

/-- StructDef from parser.py. -/
structure StructDef where
  name : String
  fields : List StructField
deriving DecidableEq, Repr

/-- Param from parser.py. -/
structure Param where
  direction : String
  type_name : String
  name : String
  is_pointer : Bool
  array_size : Option Nat := none
deriving DecidableEq, Repr

/-- Method from parser.py. -/
structure Method where
  name : String
  method_id : Nat
  params : List Param
deriving DecidableEq, Repr

/-- Notification from parser.py. -/
structure Notification where
  name : String
  notify_id : Nat
  params : List Param
deriving DecidableEq, Repr

/-- IdlFile from parser.py — the AST root. -/
structure IdlFile where
  service_name : String
  enums : List EnumDef := []
  structs : List StructDef := []
  methods : List Method := []
  notifications : List Notification := []
deriving DecidableEq, Repr

-- ── parser.py: token helpers ─────────────────────────────────────────

/-- Parser.peek: `self.tokens[self.pos]`.  Reading past the list is a
Python IndexError, modelled as `indexOutOfRange`. -/
def peekTok (toks : List Token) : Except PError Token :=
  match toks with
  | [] => .error .indexOutOfRange
  | t :: _ => .ok t

/-- Parser.advance: return the current token and step past it. -/
def advanceTok (toks : List Token) : Except PError (Token × List Token) :=
  match toks with
  | [] => .error .indexOutOfRange
  | t :: rest => .ok (t, rest)

/-- Parser.expect: advance, then check kind and (optionally) value. -/
def expectTok (toks : List Token) (kind : TokKind) (want : Option String) :
    Except PError (Token × List Token) :=
  match toks with
  | [] => .error .indexOutOfRange
  | tok :: rest =>
    if tok.kind ≠ kind then
      .error (.expectedKind tok.line kind want tok.kind tok.value)
    else
      match want with
      | some v =>
        if tok.value ≠ v then .error (.expectedValue tok.line v tok.value)
        else .ok (tok, rest)
      | none => .ok (tok, rest)

-- ── parser.py: attribute id patterns ─────────────────────────────────

/-- Strip a literal prefix from a char list, or fail. -/
def dropLit : List Char → List Char → Option (List Char)
  | [], cs => some cs
  | _ :: _, [] => none
  | k :: ks, c :: cs => if k = c then dropLit ks cs else none

/-- `re.match(r"<key>\s*=\s*(\d+)", s)`: anchored prefix match of the
literal key, optional whitespace, `=`, optional whitespace, then a
maximal nonempty digit run (the captured id); trailing characters are
ignored.  Returns the id when the prefix pattern matches. -/
def matchIdAttr (key : List Char) (s : String) : Option Nat :=
  match dropLit key s.data with
  | none => none
  | some rest =>
    match rest.dropWhile isPySpace with
    | '=' :: rest2 =>
      if ((rest2.dropWhile isPySpace).takeWhile Char.isDigit).isEmpty then none
      else some (natOfDigits ((rest2.dropWhile isPySpace).takeWhile Char.isDigit))
    | _ => none

/-- The literal key of a `[method=N]` attribute. -/
def methodKey : List Char := "method".data

/-- The literal key of a `[notify=N]` attribute. -/
def notifyKey : List Char := "notify".data

-- ── parser.py: parameters ────────────────────────────────────────────

/-- Parser._parse_param. -/
def parseParam (toks : List Token) (U : List String) :
    Except PError (Param × List Token) := do
  let (attrTok, toks1) ← expectTok toks .attr none
  let direction := pyStrip attrTok.value
  if direction ≠ "in" ∧ direction ≠ "out" then
    .error (.expectedInOut attrTok.line direction)
  else do
    let (typeTok, toks2) ← advanceTok toks1
    if typeTok.value ∉ builtinTypes ∧ typeTok.value ∉ U then
      .error (.unknownType typeTok.line typeTok.value)
    else do
      let t ← peekTok toks2
      let (array_size, toks3) ←
        if t.kind = .attr ∧ isDigitStr (pyStrip t.value) then do
          let (szTok, toksA) ← advanceTok toks2
          if strToNat (pyStrip szTok.value) < 1 then
            Except.error (.arraySizeTooSmall typeTok.line)
          else
            Except.ok (some (strToNat (pyStrip szTok.value)), toksA)
        else Except.ok ((none : Option Nat), toks2)
      if typeTok.value = "string" ∧ array_size = none then
        .error (.stringNeedsSize typeTok.line)
      else do
        let (nameTok, toks4) ← expectTok toks3 .ident none
        .ok ({ direction := direction, type_name := typeTok.value, name := nameTok.value,
               is_pointer := direction == "out", array_size := array_size }, toks4)

/-- The comma loop of Parser._parse_params. -/
def parseParamsLoop (fuel : Nat) (toks : List Token) (U : List String) (acc : List Param) :
    Except PError (List Param × List Token) :=
  match fuel with
  | 0 => .error .outOfFuel
  | fuel + 1 => do
    let t ← peekTok toks
    if t.value = "," then do
      let (_, toks1) ← advanceTok toks
      let (p, toks2) ← parseParam toks1 U
      parseParamsLoop fuel toks2 U (acc ++ [p])
    else .ok (acc, toks)

/-- Parser._parse_params. -/
def parseParams (toks : List Token) (U : List String) :
    Except PError (List Param × List Token) := do
  let (_, toks1) ← expectTok toks .symbol (some "(")
  let t ← peekTok toks1
  if t.value ≠ ")" then do
    let (p, toks2) ← parseParam toks1 U
    let (ps, toks3) ← parseParamsLoop (toks2.length + 1) toks2 U [p]
    let (_, toks4) ← expectTok toks3 .symbol (some ")")
    .ok (ps, toks4)
  else do
    let (_, toks2) ← expectTok toks1 .symbol (some ")")
    .ok ([], toks2)

-- ── parser.py: methods and notifications ─────────────────────────────

/-- Parser._parse_method. -/
def parseMethod (toks : List Token) (U : List String) :
    Except PError (Method × List Token) := do
  let (attrTok, toks1) ← expectTok toks .attr none
  match matchIdAttr methodKey attrTok.value with
  | none => .error (.expectedMethodAttr attrTok.line attrTok.value)
  | some mid => do
    let (_, toks2) ← expectTok toks1 .keyword (some "int")
    let (nameTok, toks3) ← expectTok toks2 .ident none
    let (params, toks4) ← parseParams toks3 U
    let (_, toks5) ← expectTok toks4 .symbol (some ";")
    .ok ({ name := nameTok.value, method_id := mid, params := params }, toks5)

/-- Parser._parse_notification. -/
def parseNotification (toks : List Token) (U : List String) :
    Except PError (Notification × List Token) := do
  let (attrTok, toks1) ← expectTok toks .attr none
  match matchIdAttr notifyKey attrTok.value with
  | none => .error (.expectedNotifyAttr attrTok.line attrTok.value)
  | some nid => do
    let (_, toks2) ← expectTok toks1 .keyword (some "void")
    let (nameTok, toks3) ← expectTok toks2 .ident none
    let (params, toks4) ← parseParams toks3 U
    let (_, toks5) ← expectTok toks4 .symbol (some ";")
    if params.all (fun p => p.direction == "in") then
      .ok ({ name := nameTok.value, notify_id := nid, params := params }, toks5)
    else .error (.notificationParamNotIn attrTok.line)

-- ── parser.py: enum and struct ───────────────────────────────────────

/-- The value loop of Parser._parse_enum. -/
def parseEnumValues (fuel : Nat) (toks : List Token) (acc : List EnumValue) :
    Except PError (List EnumValue × List Token) :=
  match fuel with
  | 0 => .error .outOfFuel
  | fuel + 1 => do
    let t ← peekTok toks
    if t.value = "\x7d" then .ok (acc, toks)
    else do
      let (valName, toks1) ← expectTok toks .ident none
      let (_, toks2) ← expectTok toks1 .symbol (some "=")
      let (valNum, toks3) ← expectTok toks2 .number none
      let t2 ← peekTok toks3
      if t2.value = "," then do
        let (_, toks4) ← advanceTok toks3
        parseEnumValues fuel toks4 (acc ++ [{ name := valName.value, value := strToNat valNum.value }])
      else
        parseEnumValues fuel toks3 (acc ++ [{ name := valName.value, value := strToNat valNum.value }])

/-- Parser._parse_enum.  Returns the enum, the remaining tokens and the
extended user-type table. -/
def parseEnum (toks : List Token) (U : List String) :
    Except PError (EnumDef × List Token × List String) := do
  let (_, toks1) ← expectTok toks .keyword (some "enum")
  let (nameTok, toks2) ← expectTok toks1 .ident none
  if nameTok.value ∈ U ∨ nameTok.value ∈ builtinTypes then
    .error (.typeAlreadyDefined nameTok.line nameTok.value)
  else do
    let (_, toks3) ← expectTok toks2 .symbol (some "\x7b")
    let (values, toks4) ← parseEnumValues (toks3.length + 1) toks3 []
    let (_, toks5) ← expectTok toks4 .symbol (some "\x7d")
    let (_, toks6) ← expectTok toks5 .symbol (some ";")
    .ok ({ name := nameTok.value, values := values }, toks6, U ++ [nameTok.value])

/-- The body of the field loop of Parser._parse_struct (one field). -/
def parseStructField (toks : List Token) (U : List String) :
    Except PError (StructField × List Token) := do
  let (typeTok, toks1) ← advanceTok toks
  if typeTok.value ∉ builtinTypes ∧ typeTok.value ∉ U then
    .error (.unknownType typeTok.line typeTok.value)
  else do
    let t ← peekTok toks1
    let (array_size, toks2) ←
      if t.kind = .attr ∧ isDigitStr (pyStrip t.value) then do
        let (szTok, toksA) ← advanceTok toks1
        if strToNat (pyStrip szTok.value) < 1 then
          Except.error (.arraySizeTooSmall typeTok.line)
        else
          Except.ok (some (strToNat (pyStrip szTok.value)), toksA)
      else Except.ok ((none : Option Nat), toks1)
    if typeTok.value = "string" ∧ array_size = none then
      .error (.stringNeedsSize typeTok.line)
    else do
      let (nameTok, toks3) ← expectTok toks2 .ident none
      let (_, toks4) ← expectTok toks3 .symbol (some ";")
      .ok ({ type_name := typeTok.value, name := nameTok.value, array_size := array_size }, toks4)

/-- The field loop of Parser._parse_struct. -/
def parseStructFields (fuel : Nat) (toks : List Token) (U : List String) (acc : List StructField) :
    Except PError (List StructField × List Token) :=
  match fuel with
  | 0 => .error .outOfFuel
  | fuel + 1 => do
    let t ← peekTok toks
    if t.value = "\x7d" then .ok (acc, toks)
    else do
      let (fld, toks1) ← parseStructField toks U
      parseStructFields fuel toks1 U (acc ++ [fld])

/-- Parser._parse_struct.  Returns the struct, the remaining tokens and
the extended user-type table. -/
def parseStruct (toks : List Token) (U : List String) :
    Except PError (StructDef × List Token × List String) := do
  let (_, toks1) ← expectTok toks .keyword (some "struct")
  let (nameTok, toks2) ← expectTok toks1 .ident none
  if nameTok.value ∈ U ∨ nameTok.value ∈ builtinTypes then
    .error (.typeAlreadyDefined nameTok.line nameTok.value)
  else do
    let (_, toks3) ← expectTok toks2 .symbol (some "\x7b")
    let (fields, toks4) ← parseStructFields (toks3.length + 1) toks3 U []
    let (_, toks5) ← expectTok toks4 .symbol (some "\x7d")
    let (_, toks6) ← expectTok toks5 .symbol (some ";")
    if fields.isEmpty then
      .error (.structHasNoFields nameTok.line nameTok.value)
    else
      .ok ({ name := nameTok.value, fields := fields }, toks6, U ++ [nameTok.value])

-- ── parser.py: service and notifications blocks ──────────────────────

/-- The method loop of Parser._parse_service. -/
def parseMethodsLoop (fuel : Nat) (toks : List Token) (U : List String) (acc : List Method) :
    Except PError (List Method × List Token) :=
  match fuel with
  | 0 => .error .outOfFuel
  | fuel + 1 => do
    let t ← peekTok toks
    if t.value = "\x7d" then .ok (acc, toks)
    else do
      let (m, toks1) ← parseMethod toks U
      parseMethodsLoop fuel toks1 U (acc ++ [m])

/-- The notification loop of Parser._parse_notifications. -/
def parseNotifsLoop (fuel : Nat) (toks : List Token) (U : List String) (acc : List Notification) :
    Except PError (List Notification × List Token) :=
  match fuel with
  | 0 => .error .outOfFuel
  | fuel + 1 => do
    let t ← peekTok toks
    if t.value = "\x7d" then .ok (acc, toks)
    else do
      let (nt, toks1) ← parseNotification toks U
      parseNotifsLoop fuel toks1 U (acc ++ [nt])

/-- Parser._parse_service.  `serviceName` is the current
`idl.service_name`; returns the declared name, the parsed methods and
the remaining tokens. -/
def parseService (toks : List Token) (U : List String) (serviceName : String) :
    Except PError (String × List Method × List Token) := do
  let (_, toks1) ← expectTok toks .keyword (some "service")
  let (nameTok, toks2) ← expectTok toks1 .ident none
  if serviceName ≠ "" ∧ serviceName ≠ nameTok.value then
    .error (.serviceNameMismatch nameTok.line nameTok.value serviceName)
  else do
    let (_, toks3) ← expectTok toks2 .symbol (some "\x7b")
    let (ms, toks4) ← parseMethodsLoop (toks3.length + 1) toks3 U []
    let (_, toks5) ← expectTok toks4 .symbol (some "\x7d")
    let (_, toks6) ← expectTok toks5 .symbol (some ";")
    .ok (nameTok.value, ms, toks6)

/-- Parser._parse_notifications. -/
def parseNotifications (toks : List Token) (U : List String) (serviceName : String) :
    Except PError (String × List Notification × List Token) := do
  let (_, toks1) ← expectTok toks .keyword (some "notifications")
  let (nameTok, toks2) ← expectTok toks1 .ident none
  if serviceName ≠ "" ∧ serviceName ≠ nameTok.value then
    .error (.notificationsNameMismatch nameTok.line nameTok.value serviceName)
  else do
    let (_, toks3) ← expectTok toks2 .symbol (some "\x7b")
    let (ns, toks4) ← parseNotifsLoop (toks3.length + 1) toks3 U []
    let (_, toks5) ← expectTok toks4 .symbol (some "\x7d")
    let (_, toks6) ← expectTok toks5 .symbol (some ";")
    .ok (nameTok.value, ns, toks6)

-- ── parser.py: top level ─────────────────────────────────────────────

/-- The top-level declaration loop of Parser.parse. -/
def parseLoop (fuel : Nat) (toks : List Token) (U : List String) (idl : IdlFile) :
    Except PError IdlFile :=
  match fuel with
  | 0 => .error .outOfFuel
  | fuel + 1 => do
    let t ← peekTok toks
    if t.kind = .eof then .ok idl
    else if t.kind = .keyword ∧ t.value = "enum" then do
      let (e, toks1, U1) ← parseEnum toks U
      parseLoop fuel toks1 U1 { idl with enums := idl.enums ++ [e] }
    else if t.kind = .keyword ∧ t.value = "struct" then do
      let (s, toks1, U1) ← parseStruct toks U
      parseLoop fuel toks1 U1 { idl with structs := idl.structs ++ [s] }
    else if t.kind = .keyword ∧ t.value = "service" then do
      let (nm, ms, toks1) ← parseService toks U idl.service_name
      parseLoop fuel toks1 U { idl with service_name := nm, methods := idl.methods ++ ms }
    else if t.kind = .keyword ∧ t.value = "notifications" then do
      let (nm, ns, toks1) ← parseNotifications toks U idl.service_name
      parseLoop fuel toks1 U { idl with service_name := nm, notifications := idl.notifications ++ ns }
    else .error (.expectedTopLevel t.line t.value)

/-- Parser.parse: run the declaration loop, then require a service name. -/
def parseTokens (toks : List Token) : Except PError IdlFile := do
  let idl ← parseLoop (toks.length + 1) toks [] { service_name := "" }
  if idl.service_name = "" then .error .noServiceBlock
  else .ok idl

/-- The lex-then-parse pipeline driven by main in ipcgen/__main__.py. -/
def compileIdl (text : String) : Except PError IdlFile := do
  let toks ← tokenize text
  parseTokens toks

-- ── __main__.py: artifact writes ─────────────────────────────────────

/-- The artifact write loop of main in ipcgen/__main__.py: each generated
file is written in order; a failing write raises and aborts the run,
leaving earlier files in place.  The filesystem is modelled by `fails`,
which says whether writing a given file name fails.  Returns the names
written before the first failure and whether the loop completed. -/
def writeFiles (files : List (String × String)) (fails : String → Bool) :
    List String × Bool :=
  match files with
  | [] => ([], true)
  | (name, _) :: rest =>
    if fails name then ([], false)
    else
      let r := writeFiles rest fails
      (name :: r.1, r.2)

/-- cpp_type from types.py, totalized the way the emitter consumes it:
built-ins map through TYPE_MAP, user-defined names pass through. -/
def cppType (s : String) : String :=
  match TYPE_MAP.lookup s with
  | some t => t
  | none => s

/-- Modelled from the spec: the embedded emitter (embedded_emitter.py is
absent from src/) renders a struct field as a fixed-size record member;
a field carrying an array size N becomes a fixed-length in-place buffer
`T name[N];`, so a string field of size 32 becomes `char name[32];`. -/
def emitStructFieldDecl (f : StructField) : String :=
  match f.array_size with
  | some n => cppType f.type_name ++ " " ++ f.name ++ "[" ++ toString n ++ "];"
  | none => cppType f.type_name ++ " " ++ f.name ++ ";"

-- ── proof-side predicates ────────────────────────────────────────────

/-- Well-formedness of a token list as the lexer produces it: it ends in
the EOF token (kind eof, empty text) and every identifier token has a
nonempty name. -/
def WfToks (ts : List Token) : Prop :=
  (∃ n, ts.getLast? = some ⟨.eof, "", n⟩) ∧
  ∀ t ∈ ts, t.kind = .ident → t.value ≠ ""

/-- Well-formedness of the user-type table: every name is nonempty. -/
def WfU (U : List String) : Prop := ∀ x ∈ U, x ≠ ""

/-- True of errors that model a Python `SyntaxError`: everything except an
index-out-of-range token read and the encoding's fuel exhaustion. -/
def PError.isSyntaxErr (e : PError) : Bool :=
  !(e == .indexOutOfRange || e == .outOfFuel)

/-- Proposition form of `PError.isSyntaxErr`. -/
def IsSynE (e : PError) : Prop := e ≠ .indexOutOfRange ∧ e ≠ .outOfFuel

/-- A struct field whose type was declared (built-in or in the user-type
table) at the moment the field was parsed. -/
def TypeOkF (U : List String) (fld : StructField) : Prop :=
  fld.type_name ∈ builtinTypes ∨ fld.type_name ∈ U

/-- A parameter whose type was declared at the moment it was parsed. -/
def TypeOkP (U : List String) (p : Param) : Prop :=
  p.type_name ∈ builtinTypes ∨ p.type_name ∈ U

/-- The names of the enums of an AST. -/
def enumNames (idl : IdlFile) : List String := idl.enums.map EnumDef.name

/-- The names of the structs of an AST. -/
def structNames (idl : IdlFile) : List String := idl.structs.map StructDef.name

/-- All user-declared type names of an AST. -/
def typeNames (idl : IdlFile) : List String := enumNames idl ++ structNames idl

/-- Declaration-before-use, as visible on the final AST: every struct
field references a built-in, an enum, or a strictly earlier struct (so
struct self- and forward references are impossible), and every method or
notification parameter references a built-in or a declared type. -/
def DeclBeforeUse (idl : IdlFile) : Prop :=
  (∀ i : Fin idl.structs.length, ∀ fld ∈ (idl.structs.get i).fields,
     fld.type_name ∈ builtinTypes ∨ fld.type_name ∈ enumNames idl ∨
     fld.type_name ∈ (idl.structs.take i.val).map StructDef.name) ∧
  (∀ m ∈ idl.methods, ∀ p ∈ m.params,
     p.type_name ∈ builtinTypes ∨ p.type_name ∈ typeNames idl) ∧
  (∀ nt ∈ idl.notifications, ∀ p ∈ nt.params,
     p.type_name ∈ builtinTypes ∨ p.type_name ∈ typeNames idl)

/-- Type-name uniqueness, as visible on the final AST: the declared enum
and struct names are pairwise distinct and none is a built-in name. -/
def UniqueTypeNames (idl : IdlFile) : Prop :=
  (typeNames idl).Nodup ∧ ∀ x ∈ typeNames idl, x ∉ builtinTypes

-- ── helper lemmas for the scanners ───────────────────────────────────

theorem findBlockEnd_len (cs : List Char) :
    ∀ k rest, findBlockEnd cs = some (k, rest) → rest.length ≤ cs.length := by
  induction cs with
  | nil => intro k rest h; simp [findBlockEnd] at h
  | cons c cs ih =>
    intro k rest h
    rw [findBlockEnd] at h
    split at h
    · cases h
      simp only [List.length_tail, List.length_cons]
      omega
    · split at h
      · cases hfe : findBlockEnd cs with
        | none => rw [hfe] at h; simp at h
        | some p =>
          rw [hfe] at h
          simp only [Option.map_some'] at h
          have := ih p.1 p.2 hfe
          cases h
          simp only [List.length_cons]
          omega
      · have := ih k rest h
        simp only [List.length_cons]
        omega

theorem splitAtRBracket_len (cs : List Char) :
    ∀ inner rest, splitAtRBracket cs = some (inner, rest) → rest.length < cs.length := by
  induction cs with
  | nil => intro inner rest h; simp [splitAtRBracket] at h
  | cons c cs ih =>
    intro inner rest h
    rw [splitAtRBracket] at h
    split at h
    · cases h
      simp only [List.length_cons]
      omega
    · cases hfe : splitAtRBracket cs with
      | none => rw [hfe] at h; simp at h
      | some p =>
        rw [hfe] at h
        simp only [Option.map_some'] at h
        have := ih p.1 p.2 hfe
        cases h
        simp only [List.length_cons]
        omega

theorem asString_ne_empty (c : Char) (l : List Char) : (c :: l).asString ≠ "" := by
  intro h
  have : (c :: l) = ("" : String).data := congrArg String.data h
  simp [List.asString] at this

theorem WfToks.ne_nil {ts : List Token} (h : WfToks ts) : ts ≠ [] := by
  obtain ⟨⟨n, hn⟩, -⟩ := h
  intro he
  subst he
  simp at hn

theorem WfToks.head_cases {t : Token} {rest : List Token} (h : WfToks (t :: rest)) :
    (rest = [] ∧ ∃ n, t = ⟨.eof, "", n⟩) ∨ (rest ≠ [] ∧ WfToks rest) := by
  obtain ⟨⟨n, hn⟩, hid⟩ := h
  cases rest with
  | nil =>
    left
    refine ⟨rfl, n, ?_⟩
    simpa using hn
  | cons b bs =>
    right
    refine ⟨by simp, ⟨n, ?_⟩, ?_⟩
    · simpa [List.getLast?_cons_cons] using hn
    · intro t' ht' hk
      exact hid t' (List.mem_cons_of_mem _ ht') hk

theorem WfToks.head_ident {t : Token} {rest : List Token} (h : WfToks (t :: rest)) :
    t.kind = .ident → t.value ≠ "" :=
  h.2 t (List.mem_cons_self _ _)

theorem WfToks.tail_of_kind {t : Token} {rest : List Token} (h : WfToks (t :: rest))
    (hk : t.kind ≠ .eof) : rest ≠ [] ∧ WfToks rest := by
  rcases h.head_cases with ⟨-, n, ht⟩ | hr
  · subst ht
    exact absurd rfl hk
  · exact hr

theorem WfToks.tail_of_value {t : Token} {rest : List Token} (h : WfToks (t :: rest))
    (hv : t.value ≠ "") : rest ≠ [] ∧ WfToks rest := by
  rcases h.head_cases with ⟨-, n, ht⟩ | hr
  · subst ht
    exact absurd rfl hv
  · exact hr

theorem wfU_append {U : List String} {x : String} (hu : WfU U) (hx : x ≠ "") :
    WfU (U ++ [x]) := by
  intro y hy
  rcases List.mem_append.mp hy with hy | hy
  · exact hu y hy
  · simp at hy
    subst hy
    exact hx

theorem expectTok_cases (toks : List Token) (k : TokKind) (v : Option String)
    (hw : WfToks toks) (hk : k ≠ .eof) :
    (∃ e, expectTok toks k v = .error e ∧ IsSynE e) ∨
    (∃ t rest, toks = t :: rest ∧ expectTok toks k v = .ok (t, rest) ∧ t.kind = k ∧
       (t.kind = .ident → t.value ≠ "") ∧ WfToks rest ∧ rest.length + 1 = toks.length) := by
  cases toks with
  | nil => exact absurd rfl hw.ne_nil
  | cons t rest =>
    by_cases hkind : t.kind = k
    · have hrest : rest ≠ [] ∧ WfToks rest := hw.tail_of_kind (hkind ▸ hk)
      cases v with
      | none =>
        right
        exact ⟨t, rest, rfl, by simp [expectTok, hkind], hkind, hw.head_ident, hrest.2, by simp⟩
      | some s =>
        by_cases hv : t.value = s
        · right
          exact ⟨t, rest, rfl, by simp [expectTok, hkind, hv], hkind, hw.head_ident, hrest.2,
            by simp⟩
        · left
          exact ⟨.expectedValue t.line s t.value, by simp [expectTok, hkind, hv],
            by constructor <;> simp⟩
    · left
      exact ⟨.expectedKind t.line k v t.kind t.value, by simp [expectTok, hkind],
        by constructor <;> simp⟩

theorem empty_not_builtin : ("" : String) ∉ builtinTypes := by decide

theorem string_mem_builtin : ("string" : String) ∈ builtinTypes := by decide

theorem parseStructField_cases (toks : List Token) (U : List String)
    (hw : WfToks toks) (hu : WfU U) :
    (∃ e, parseStructField toks U = .error e ∧ IsSynE e) ∨
    (∃ fld toks', parseStructField toks U = .ok (fld, toks') ∧ WfToks toks' ∧
       toks'.length < toks.length ∧ TypeOkF U fld) := by
  cases toks with
  | nil => exact absurd rfl hw.ne_nil
  | cons typeTok toks1 =>
    by_cases hunk : typeTok.value ∉ builtinTypes ∧ typeTok.value ∉ U
    · left
      exact ⟨.unknownType typeTok.line typeTok.value,
        by simp [parseStructField, advanceTok, bind, Except.bind, hunk],
        by constructor <;> simp⟩
    · have hknown : typeTok.value ∈ builtinTypes ∨ typeTok.value ∈ U := by
        by_cases hb : typeTok.value ∈ builtinTypes
        · exact Or.inl hb
        · refine Or.inr ?_
          by_cases hU : typeTok.value ∈ U
          · exact hU
          · exact absurd ⟨hb, hU⟩ hunk
      rcases hw.head_cases with ⟨hrest, n, ht⟩ | ⟨hne1, hw1⟩
      · exfalso
        subst ht
        rcases hknown with hb | hU
        · exact empty_not_builtin hb
        · exact hu _ hU rfl
      · cases toks1 with
        | nil => exact absurd rfl hne1
        | cons t2 toks2 =>
          by_cases hattr : t2.kind = .attr ∧ isDigitStr (pyStrip t2.value)
          · by_cases hsz : strToNat (pyStrip t2.value) < 1
            · left
              exact ⟨.arraySizeTooSmall typeTok.line,
                by simp [parseStructField, advanceTok, peekTok, bind, Except.bind, hunk,
                  hattr.1, hattr.2, hsz],
                by constructor <;> simp⟩
            · have hw2 : toks2 ≠ [] ∧ WfToks toks2 :=
                hw1.tail_of_kind (by rw [hattr.1]; decide)
              rcases expectTok_cases toks2 .ident none hw2.2 (by decide) with
                ⟨e, heq2, hsyn⟩ | ⟨nameTok, toks3, hts3, heq2, hk3, hi3, hw3, hlen3⟩
              · left
                exact ⟨e,
                  by simp [parseStructField, advanceTok, peekTok, bind, Except.bind, hunk,
                    hattr.1, hattr.2, hsz, heq2],
                  hsyn⟩
              · rcases expectTok_cases toks3 .symbol (some ";") hw3 (by decide) with
                  ⟨e, heq3, hsyn⟩ | ⟨semiTok, toks4, hts4, heq3, hk4, hi4, hw4, hlen4⟩
                · left
                  exact ⟨e,
                    by simp [parseStructField, advanceTok, peekTok, bind, Except.bind, hunk,
                      hattr.1, hattr.2, hsz, heq2, heq3],
                    hsyn⟩
                · right
                  refine ⟨{ type_name := typeTok.value, name := nameTok.value,
                            array_size := some (strToNat (pyStrip t2.value)) }, toks4,
                    ?_, hw4, ?_, ?_⟩
                  · simp [parseStructField, advanceTok, peekTok, bind, Except.bind, hunk,
                      hattr.1, hattr.2, hsz, heq2, heq3]
                  · subst hts3
                    subst hts4
                    simp
                    omega
                  · exact hknown
          · by_cases hstr : typeTok.value = "string"
            · left
              refine ⟨.stringNeedsSize typeTok.line, ?_, by constructor <;> simp⟩
              simp only [parseStructField, advanceTok, peekTok, bind, Except.bind]
              simp [hunk, hattr, hstr]
              intro h
              exact absurd string_mem_builtin h
            · rcases expectTok_cases (t2 :: toks2) .ident none hw1 (by decide) with
                ⟨e, heq2, hsyn⟩ | ⟨nameTok, toks3, hts3, heq2, hk3, hi3, hw3, hlen3⟩
              · left
                exact ⟨e,
                  by simp [parseStructField, advanceTok, peekTok, bind, Except.bind, hunk,
                    hattr, hstr, heq2],
                  hsyn⟩
              · rcases expectTok_cases toks3 .symbol (some ";") hw3 (by decide) with
                  ⟨e, heq3, hsyn⟩ | ⟨semiTok, toks4, hts4, heq3, hk4, hi4, hw4, hlen4⟩
                · left
                  exact ⟨e,
                    by simp [parseStructField, advanceTok, peekTok, bind, Except.bind, hunk,
                      hattr, hstr, heq2, heq3],
                    hsyn⟩
                · right
                  refine ⟨{ type_name := typeTok.value, name := nameTok.value,
                            array_size := none }, toks4, ?_, hw4, ?_, ?_⟩
                  · simp [parseStructField, advanceTok, peekTok, bind, Except.bind, hunk,
                      hattr, hstr, heq2, heq3]
                  · have : toks3.length + 1 = (t2 :: toks2).length := hlen3
                    subst hts4
                    simp at this ⊢
                    omega
                  · exact hknown

theorem parseParam_cases (toks : List Token) (U : List String)
    (hw : WfToks toks) (hu : WfU U) :
    (∃ e, parseParam toks U = .error e ∧ IsSynE e) ∨
    (∃ p toks', parseParam toks U = .ok (p, toks') ∧ WfToks toks' ∧
       toks'.length < toks.length ∧ TypeOkP U p) := by
  rcases expectTok_cases toks .attr none hw (by decide) with
    ⟨e, heq1, hsyn⟩ | ⟨attrTok, toks1, hts1, heq1, hk1, hi1, hw1, hlen1⟩
  · left
    exact ⟨e, by simp [parseParam, bind, Except.bind, heq1], hsyn⟩
  · by_cases hdir : pyStrip attrTok.value ≠ "in" ∧ pyStrip attrTok.value ≠ "out"
    · left
      exact ⟨.expectedInOut attrTok.line (pyStrip attrTok.value),
        by simp [parseParam, bind, Except.bind, heq1, hdir],
        by constructor <;> simp⟩
    · cases toks1 with
      | nil => exact absurd rfl hw1.ne_nil
      | cons typeTok toks2 =>
        by_cases hunk : typeTok.value ∉ builtinTypes ∧ typeTok.value ∉ U
        · left
          exact ⟨.unknownType typeTok.line typeTok.value,
            by simp [parseParam, advanceTok, bind, Except.bind, heq1, hdir, hunk],
            by constructor <;> simp⟩
        · have hknown : typeTok.value ∈ builtinTypes ∨ typeTok.value ∈ U := by
            by_cases hb : typeTok.value ∈ builtinTypes
            · exact Or.inl hb
            · refine Or.inr ?_
              by_cases hU : typeTok.value ∈ U
              · exact hU
              · exact absurd ⟨hb, hU⟩ hunk
          rcases hw1.head_cases with ⟨hrest, n, ht⟩ | ⟨hne2, hw2⟩
          · exfalso
            subst ht
            rcases hknown with hb | hU
            · exact empty_not_builtin hb
            · exact hu _ hU rfl
          · cases toks2 with
            | nil => exact absurd rfl hne2
            | cons t2 toks3 =>
              by_cases hattr : t2.kind = .attr ∧ isDigitStr (pyStrip t2.value)
              · by_cases hsz : strToNat (pyStrip t2.value) < 1
                · left
                  exact ⟨.arraySizeTooSmall typeTok.line,
                    by simp [parseParam, advanceTok, peekTok, bind, Except.bind, heq1, hdir,
                      hunk, hattr.1, hattr.2, hsz],
                    by constructor <;> simp⟩
                · have hw3 : toks3 ≠ [] ∧ WfToks toks3 :=
                    hw2.tail_of_kind (by rw [hattr.1]; decide)
                  rcases expectTok_cases toks3 .ident none hw3.2 (by decide) with
                    ⟨e, heq2, hsyn⟩ | ⟨nameTok, toks4, hts4, heq2, hk4, hi4, hw4, hlen4⟩
                  · left
                    exact ⟨e,
                      by simp [parseParam, advanceTok, peekTok, bind, Except.bind, heq1, hdir,
                        hunk, hattr.1, hattr.2, hsz, heq2],
                      hsyn⟩
                  · right
                    refine ⟨{ direction := pyStrip attrTok.value, type_name := typeTok.value,
                              name := nameTok.value,
                              is_pointer := pyStrip attrTok.value == "out",
                              array_size := some (strToNat (pyStrip t2.value)) }, toks4,
                      ?_, hw4, ?_, ?_⟩
                    · simp [parseParam, advanceTok, peekTok, bind, Except.bind, heq1, hdir,
                        hunk, hattr.1, hattr.2, hsz, heq2]
                    · subst hts1
                      subst hts4
                      simp
                      omega
                    · exact hknown
              · by_cases hstr : typeTok.value = "string"
                · left
                  refine ⟨.stringNeedsSize typeTok.line, ?_, by constructor <;> simp⟩
                  simp only [parseParam, advanceTok, peekTok, bind, Except.bind]
                  simp [heq1, hdir, hunk, hattr, hstr]
                  intro h
                  exact absurd string_mem_builtin h
                · rcases expectTok_cases (t2 :: toks3) .ident none hw2 (by decide) with
                    ⟨e, heq2, hsyn⟩ | ⟨nameTok, toks4, hts4, heq2, hk4, hi4, hw4, hlen4⟩
                  · left
                    exact ⟨e,
                      by simp [parseParam, advanceTok, peekTok, bind, Except.bind, heq1, hdir,
                        hunk, hattr, hstr, heq2],
                      hsyn⟩
                  · right
                    refine ⟨{ direction := pyStrip attrTok.value, type_name := typeTok.value,
                              name := nameTok.value,
                              is_pointer := pyStrip attrTok.value == "out",
                              array_size := none }, toks4, ?_, hw4, ?_, ?_⟩
                    · simp [parseParam, advanceTok, peekTok, bind, Except.bind, heq1, hdir,
                        hunk, hattr, hstr, heq2]
                    · have h4 : toks4.length + 1 = (t2 :: toks3).length := hlen4
                      subst hts1
                      simp at h4 ⊢
                      omega
                    · exact hknown

theorem parseParamsLoop_cases (fuel : Nat) :
    ∀ toks U acc, WfToks toks → WfU U → toks.length < fuel →
    (∀ p ∈ acc, TypeOkP U p) →
    (∃ e, parseParamsLoop fuel toks U acc = .error e ∧ IsSynE e) ∨
    (∃ ps toks', parseParamsLoop fuel toks U acc = .ok (ps, toks') ∧ WfToks toks' ∧
       toks'.length ≤ toks.length ∧ ∀ p ∈ ps, TypeOkP U p) := by
  induction fuel with
  | zero => intro toks U acc hw hu hf hacc; omega
  | succ fuel ih =>
    intro toks U acc hw hu hf hacc
    cases toks with
    | nil => exact absurd rfl hw.ne_nil
    | cons t rest =>
      by_cases hcomma : t.value = ","
      · have hrest : rest ≠ [] ∧ WfToks rest := hw.tail_of_value (by simp [hcomma])
        rcases parseParam_cases rest U hrest.2 hu with
          ⟨e, heqp, hsyn⟩ | ⟨p, toks2, heqp, hw2, hlen2, hok2⟩
        · left
          exact ⟨e,
            by simp [parseParamsLoop, peekTok, advanceTok, bind, Except.bind, hcomma, heqp],
            hsyn⟩
        · have hsm : toks2.length < fuel := by
            simp at hf
            omega
          have hacc2 : ∀ p' ∈ acc ++ [p], TypeOkP U p' := by
            intro p' hp'
            rcases List.mem_append.mp hp' with h | h
            · exact hacc p' h
            · simp at h
              subst h
              exact hok2
          rcases ih toks2 U (acc ++ [p]) hw2 hu hsm hacc2 with
            ⟨e, heqr, hsyn⟩ | ⟨ps, toks3, heqr, hw3, hlen3, hok3⟩
          · left
            exact ⟨e,
              by simp [parseParamsLoop, peekTok, advanceTok, bind, Except.bind, hcomma,
                heqp, heqr],
              hsyn⟩
          · right
            refine ⟨ps, toks3, ?_, hw3, ?_, hok3⟩
            · simp [parseParamsLoop, peekTok, advanceTok, bind, Except.bind, hcomma,
                heqp, heqr]
            · simp only [List.length_cons]
              omega
      · right
        exact ⟨acc, t :: rest,
          by simp [parseParamsLoop, peekTok, bind, Except.bind, hcomma],
          hw, Nat.le_refl _, hacc⟩

theorem parseParams_cases (toks : List Token) (U : List String)
    (hw : WfToks toks) (hu : WfU U) :
    (∃ e, parseParams toks U = .error e ∧ IsSynE e) ∨
    (∃ ps toks', parseParams toks U = .ok (ps, toks') ∧ WfToks toks' ∧
       toks'.length < toks.length ∧ ∀ p ∈ ps, TypeOkP U p) := by
  rcases expectTok_cases toks .symbol (some "(") hw (by decide) with
    ⟨e, heq1, hsyn⟩ | ⟨lpTok, toks1, hts1, heq1, hk1, hi1, hw1, hlen1⟩
  · left
    exact ⟨e, by simp [parseParams, bind, Except.bind, heq1], hsyn⟩
  · cases toks1 with
    | nil => exact absurd rfl hw1.ne_nil
    | cons t toks1' =>
      by_cases hrp : t.value = ")"
      · rcases expectTok_cases (t :: toks1') .symbol (some ")") hw1 (by decide) with
          ⟨e, heq2, hsyn⟩ | ⟨rpTok, toks2, hts2, heq2, hk2, hi2, hw2, hlen2⟩
        · left
          exact ⟨e, by simp [parseParams, peekTok, bind, Except.bind, heq1, hrp, heq2], hsyn⟩
        · right
          refine ⟨[], toks2, ?_, hw2, ?_, by simp⟩
          · simp [parseParams, peekTok, bind, Except.bind, heq1, hrp, heq2]
          · subst hts1
            have h2 : toks2.length + 1 = (t :: toks1').length := hlen2
            simp at h2 ⊢
            omega
      · rcases parseParam_cases (t :: toks1') U hw1 hu with
          ⟨e, heqp, hsyn⟩ | ⟨p, toks2, heqp, hw2, hlen2, hok2⟩
        · left
          exact ⟨e, by simp [parseParams, peekTok, bind, Except.bind, heq1, hrp, heqp], hsyn⟩
        · rcases parseParamsLoop_cases (toks2.length + 1) toks2 U [p] hw2 hu
            (Nat.lt_succ_self _) (by simpa using hok2) with
            ⟨e, heqr, hsyn⟩ | ⟨ps, toks3, heqr, hw3, hlen3, hok3⟩
          · left
            exact ⟨e,
              by simp [parseParams, peekTok, bind, Except.bind, heq1, hrp, heqp, heqr], hsyn⟩
          · rcases expectTok_cases toks3 .symbol (some ")") hw3 (by decide) with
              ⟨e, heq3, hsyn⟩ | ⟨rpTok, toks4, hts4, heq3, hk4, hi4, hw4, hlen4⟩
            · left
              exact ⟨e,
                by simp [parseParams, peekTok, bind, Except.bind, heq1, hrp, heqp, heqr, heq3],
                hsyn⟩
            · right
              refine ⟨ps, toks4, ?_, hw4, ?_, hok3⟩
              · simp [parseParams, peekTok, bind, Except.bind, heq1, hrp, heqp, heqr, heq3]
              · subst hts1
                subst hts4
                have h2 : toks2.length < (t :: toks1').length := hlen2
                simp at h2 ⊢
                omega

theorem parseMethod_cases (toks : List Token) (U : List String)
    (hw : WfToks toks) (hu : WfU U) :
    (∃ e, parseMethod toks U = .error e ∧ IsSynE e) ∨
    (∃ m toks', parseMethod toks U = .ok (m, toks') ∧ WfToks toks' ∧
       toks'.length < toks.length ∧ (∀ p ∈ m.params, TypeOkP U p) ∧
       ∃ attrTok rest, toks = attrTok :: rest ∧
         matchIdAttr methodKey attrTok.value = some m.method_id) := by
  rcases expectTok_cases toks .attr none hw (by decide) with
    ⟨e, heq1, hsyn⟩ | ⟨attrTok, toks1, hts1, heq1, hk1, hi1, hw1, hlen1⟩
  · left
    exact ⟨e, by simp [parseMethod, bind, Except.bind, heq1], hsyn⟩
  · cases hm : matchIdAttr methodKey attrTok.value with
    | none =>
      left
      exact ⟨.expectedMethodAttr attrTok.line attrTok.value,
        by simp [parseMethod, bind, Except.bind, heq1, hm],
        by constructor <;> simp⟩
    | some mid =>
      rcases expectTok_cases toks1 .keyword (some "int") hw1 (by decide) with
        ⟨e, heq2, hsyn⟩ | ⟨kwTok, toks2, hts2, heq2, hk2, hi2, hw2, hlen2⟩
      · left
        exact ⟨e, by simp [parseMethod, bind, Except.bind, heq1, hm, heq2], hsyn⟩
      · rcases expectTok_cases toks2 .ident none hw2 (by decide) with
          ⟨e, heq3, hsyn⟩ | ⟨nameTok, toks3, hts3, heq3, hk3, hi3, hw3, hlen3⟩
        · left
          exact ⟨e, by simp [parseMethod, bind, Except.bind, heq1, hm, heq2, heq3], hsyn⟩
        · rcases parseParams_cases toks3 U hw3 hu with
            ⟨e, heqp, hsyn⟩ | ⟨ps, toks4, heqp, hw4, hlen4, hok4⟩
          · left
            exact ⟨e, by simp [parseMethod, bind, Except.bind, heq1, hm, heq2, heq3, heqp],
              hsyn⟩
          · rcases expectTok_cases toks4 .symbol (some ";") hw4 (by decide) with
              ⟨e, heq5, hsyn⟩ | ⟨semiTok, toks5, hts5, heq5, hk5, hi5, hw5, hlen5⟩
            · left
              exact ⟨e,
                by simp [parseMethod, bind, Except.bind, heq1, hm, heq2, heq3, heqp, heq5],
                hsyn⟩
            · right
              refine ⟨{ name := nameTok.value, method_id := mid, params := ps }, toks5,
                ?_, hw5, ?_, by simpa using hok4, attrTok, toks1, hts1, by simpa using hm⟩
              · simp [parseMethod, bind, Except.bind, heq1, hm, heq2, heq3, heqp, heq5]
              · subst hts1
                subst hts5
                simp at hlen2 hlen3 ⊢
                omega

theorem parseNotification_cases (toks : List Token) (U : List String)
    (hw : WfToks toks) (hu : WfU U) :
    (∃ e, parseNotification toks U = .error e ∧ IsSynE e) ∨
    (∃ nt toks', parseNotification toks U = .ok (nt, toks') ∧ WfToks toks' ∧
       toks'.length < toks.length ∧ (∀ p ∈ nt.params, TypeOkP U p) ∧
       ∃ attrTok rest, toks = attrTok :: rest ∧
         matchIdAttr notifyKey attrTok.value = some nt.notify_id) := by
  rcases expectTok_cases toks .attr none hw (by decide) with
    ⟨e, heq1, hsyn⟩ | ⟨attrTok, toks1, hts1, heq1, hk1, hi1, hw1, hlen1⟩
  · left
    exact ⟨e, by simp [parseNotification, bind, Except.bind, heq1], hsyn⟩
  · cases hm : matchIdAttr notifyKey attrTok.value with
    | none =>
      left
      exact ⟨.expectedNotifyAttr attrTok.line attrTok.value,
        by simp [parseNotification, bind, Except.bind, heq1, hm],
        by constructor <;> simp⟩
    | some nid =>
      rcases expectTok_cases toks1 .keyword (some "void") hw1 (by decide) with
        ⟨e, heq2, hsyn⟩ | ⟨kwTok, toks2, hts2, heq2, hk2, hi2, hw2, hlen2⟩
      · left
        exact ⟨e, by simp [parseNotification, bind, Except.bind, heq1, hm, heq2], hsyn⟩
      · rcases expectTok_cases toks2 .ident none hw2 (by decide) with
          ⟨e, heq3, hsyn⟩ | ⟨nameTok, toks3, hts3, heq3, hk3, hi3, hw3, hlen3⟩
        · left
          exact ⟨e, by simp [parseNotification, bind, Except.bind, heq1, hm, heq2, heq3], hsyn⟩
        · rcases parseParams_cases toks3 U hw3 hu with
            ⟨e, heqp, hsyn⟩ | ⟨ps, toks4, heqp, hw4, hlen4, hok4⟩
          · left
            exact ⟨e,
              by simp [parseNotification, bind, Except.bind, heq1, hm, heq2, heq3, heqp], hsyn⟩
          · rcases expectTok_cases toks4 .symbol (some ";") hw4 (by decide) with
              ⟨e, heq5, hsyn⟩ | ⟨semiTok, toks5, hts5, heq5, hk5, hi5, hw5, hlen5⟩
            · left
              exact ⟨e,
                by simp [parseNotification, bind, Except.bind, heq1, hm, heq2, heq3, heqp,
                  heq5],
                hsyn⟩
            · by_cases hall : ps.all (fun p => p.direction == "in")
              · right
                refine ⟨{ name := nameTok.value, notify_id := nid, params := ps }, toks5,
                  ?_, hw5, ?_, by simpa using hok4, attrTok, toks1, hts1, by simpa using hm⟩
                · simp [parseNotification, bind, Except.bind, heq1, hm, heq2, heq3, heqp,
                    heq5, hall]
                · subst hts1
                  subst hts5
                  simp at hlen2 hlen3 ⊢
                  omega
              · left
                exact ⟨.notificationParamNotIn attrTok.line,
                  by simp [parseNotification, bind, Except.bind, heq1, hm, heq2, heq3, heqp,
                    heq5, hall],
                  by constructor <;> simp⟩

theorem parseEnumValues_cases (fuel : Nat) :
    ∀ toks acc, WfToks toks → toks.length < fuel →
    (∃ e, parseEnumValues fuel toks acc = .error e ∧ IsSynE e) ∨
    (∃ vs toks', parseEnumValues fuel toks acc = .ok (vs, toks') ∧ WfToks toks' ∧
       toks'.length ≤ toks.length) := by
  induction fuel with
  | zero => intro toks acc hw hf; omega
  | succ fuel ih =>
    intro toks acc hw hf
    cases toks with
    | nil => exact absurd rfl hw.ne_nil
    | cons t rest =>
      by_cases hbr : t.value = "\x7d"
      · right
        exact ⟨acc, t :: rest, by simp [parseEnumValues, peekTok, bind, Except.bind, hbr],
          hw, Nat.le_refl _⟩
      · rcases expectTok_cases (t :: rest) .ident none hw (by decide) with
          ⟨e, heq1, hsyn⟩ | ⟨nameTok, toks1, hts1, heq1, hk1, hi1, hw1, hlen1⟩
        · left
          exact ⟨e, by simp [parseEnumValues, peekTok, bind, Except.bind, hbr, heq1], hsyn⟩
        · rcases expectTok_cases toks1 .symbol (some "=") hw1 (by decide) with
            ⟨e, heq2, hsyn⟩ | ⟨eqTok, toks2, hts2, heq2, hk2, hi2, hw2, hlen2⟩
          · left
            exact ⟨e, by simp [parseEnumValues, peekTok, bind, Except.bind, hbr, heq1, heq2],
              hsyn⟩
          · rcases expectTok_cases toks2 .number none hw2 (by decide) with
              ⟨e, heq3, hsyn⟩ | ⟨numTok, toks3, hts3, heq3, hk3, hi3, hw3, hlen3⟩
            · left
              exact ⟨e,
                by simp [parseEnumValues, peekTok, bind, Except.bind, hbr, heq1, heq2, heq3],
                hsyn⟩
            · cases toks3 with
              | nil => exact absurd rfl hw3.ne_nil
              | cons t2 toks3' =>
                have hlt : (t2 :: toks3').length < (t :: rest).length := by
                  have e1 : toks1.length + 1 = (t :: rest).length := hlen1
                  have e2 : toks2.length + 1 = toks1.length := hlen2
                  have e3 : (t2 :: toks3').length + 1 = toks2.length := hlen3
                  omega
                by_cases hcomma : t2.value = ","
                · have hr : toks3' ≠ [] ∧ WfToks toks3' :=
                    hw3.tail_of_value (by simp [hcomma])
                  have hsm : toks3'.length < fuel := by
                    simp only [List.length_cons] at hf hlt
                    omega
                  rcases ih toks3'
                      (acc ++ [{ name := nameTok.value, value := strToNat numTok.value }])
                      hr.2 hsm with
                    ⟨e, heqr, hsyn⟩ | ⟨vs, toks4, heqr, hw4, hlen4⟩
                  · left
                    exact ⟨e,
                      by simp [parseEnumValues, peekTok, advanceTok, bind, Except.bind, hbr,
                        heq1, heq2, heq3, hcomma, heqr],
                      hsyn⟩
                  · right
                    refine ⟨vs, toks4, ?_, hw4, ?_⟩
                    · simp [parseEnumValues, peekTok, advanceTok, bind, Except.bind, hbr,
                        heq1, heq2, heq3, hcomma, heqr]
                    · simp only [List.length_cons] at hlt ⊢
                      omega
                · have hsm : (t2 :: toks3').length < fuel := by
                    simp only [List.length_cons] at hf hlt ⊢
                    omega
                  rcases ih (t2 :: toks3')
                      (acc ++ [{ name := nameTok.value, value := strToNat numTok.value }])
                      hw3 hsm with
                    ⟨e, heqr, hsyn⟩ | ⟨vs, toks4, heqr, hw4, hlen4⟩
                  · left
                    exact ⟨e,
                      by simp [parseEnumValues, peekTok, bind, Except.bind, hbr,
                        heq1, heq2, heq3, hcomma, heqr],
                      hsyn⟩
                  · right
                    refine ⟨vs, toks4, ?_, hw4, ?_⟩
                    · simp [parseEnumValues, peekTok, bind, Except.bind, hbr,
                        heq1, heq2, heq3, hcomma, heqr]
                    · simp only [List.length_cons] at hlt hlen4 ⊢
                      omega

theorem parseEnum_cases (toks : List Token) (U : List String)
    (hw : WfToks toks) (_hu : WfU U) :
    (∃ e, parseEnum toks U = .error e ∧ IsSynE e) ∨
    (∃ ed toks' U', parseEnum toks U = .ok (ed, toks', U') ∧ WfToks toks' ∧
       toks'.length < toks.length ∧ U' = U ++ [ed.name] ∧ ed.name ∉ U ∧
       ed.name ∉ builtinTypes ∧ ed.name ≠ "") := by
  rcases expectTok_cases toks .keyword (some "enum") hw (by decide) with
    ⟨e, heq1, hsyn⟩ | ⟨kwTok, toks1, hts1, heq1, hk1, hi1, hw1, hlen1⟩
  · left
    exact ⟨e, by simp [parseEnum, bind, Except.bind, heq1], hsyn⟩
  · rcases expectTok_cases toks1 .ident none hw1 (by decide) with
      ⟨e, heq2, hsyn⟩ | ⟨nameTok, toks2, hts2, heq2, hk2, hi2, hw2, hlen2⟩
    · left
      exact ⟨e, by simp [parseEnum, bind, Except.bind, heq1, heq2], hsyn⟩
    · by_cases hdup : nameTok.value ∈ U ∨ nameTok.value ∈ builtinTypes
      · left
        exact ⟨.typeAlreadyDefined nameTok.line nameTok.value,
          by simp [parseEnum, bind, Except.bind, heq1, heq2, hdup],
          by constructor <;> simp⟩
      · rcases expectTok_cases toks2 .symbol (some "\x7b") hw2 (by decide) with
          ⟨e, heq3, hsyn⟩ | ⟨lbTok, toks3, hts3, heq3, hk3, hi3, hw3, hlen3⟩
        · left
          exact ⟨e, by simp [parseEnum, bind, Except.bind, heq1, heq2, hdup, heq3], hsyn⟩
        · rcases parseEnumValues_cases (toks3.length + 1) toks3 [] hw3 (Nat.lt_succ_self _)
            with ⟨e, heqv, hsyn⟩ | ⟨vs, toks4, heqv, hw4, hlen4⟩
          · left
            exact ⟨e, by simp [parseEnum, bind, Except.bind, heq1, heq2, hdup, heq3, heqv],
              hsyn⟩
          · rcases expectTok_cases toks4 .symbol (some "\x7d") hw4 (by decide) with
              ⟨e, heq5, hsyn⟩ | ⟨rbTok, toks5, hts5, heq5, hk5, hi5, hw5, hlen5⟩
            · left
              exact ⟨e,
                by simp [parseEnum, bind, Except.bind, heq1, heq2, hdup, heq3, heqv, heq5],
                hsyn⟩
            · rcases expectTok_cases toks5 .symbol (some ";") hw5 (by decide) with
                ⟨e, heq6, hsyn⟩ | ⟨semiTok, toks6, hts6, heq6, hk6, hi6, hw6, hlen6⟩
              · left
                exact ⟨e,
                  by simp [parseEnum, bind, Except.bind, heq1, heq2, hdup, heq3, heqv, heq5,
                    heq6],
                  hsyn⟩
              · right
                refine ⟨{ name := nameTok.value, values := vs }, toks6, U ++ [nameTok.value],
                  ?_, hw6, ?_, by simp, ?_, ?_, hi2 hk2⟩
                · simp [parseEnum, bind, Except.bind, heq1, heq2, hdup, heq3, heqv, heq5, heq6]
                · subst hts1
                  subst hts5
                  subst hts6
                  simp at hlen2 hlen3 ⊢
                  omega
                · intro hmem
                  exact hdup (Or.inl hmem)
                · intro hmem
                  exact hdup (Or.inr hmem)

theorem parseStructFields_cases (fuel : Nat) :
    ∀ toks U acc, WfToks toks → WfU U → toks.length < fuel →
    (∀ fld ∈ acc, TypeOkF U fld) →
    (∃ e, parseStructFields fuel toks U acc = .error e ∧ IsSynE e) ∨
    (∃ flds toks', parseStructFields fuel toks U acc = .ok (flds, toks') ∧ WfToks toks' ∧
       toks'.length ≤ toks.length ∧ ∀ fld ∈ flds, TypeOkF U fld) := by
  induction fuel with
  | zero => intro toks U acc hw hu hf hacc; omega
  | succ fuel ih =>
    intro toks U acc hw hu hf hacc
    cases toks with
    | nil => exact absurd rfl hw.ne_nil
    | cons t rest =>
      by_cases hbr : t.value = "\x7d"
      · right
        exact ⟨acc, t :: rest, by simp [parseStructFields, peekTok, bind, Except.bind, hbr],
          hw, Nat.le_refl _, hacc⟩
      · rcases parseStructField_cases (t :: rest) U hw hu with
          ⟨e, heqf, hsyn⟩ | ⟨fld, toks1, heqf, hw1, hlen1, hok1⟩
        · left
          exact ⟨e, by simp [parseStructFields, peekTok, bind, Except.bind, hbr, heqf], hsyn⟩
        · have hsm : toks1.length < fuel := by
            simp only [List.length_cons] at hf hlen1
            omega
          have hacc1 : ∀ f ∈ acc ++ [fld], TypeOkF U f := by
            intro f hf'
            rcases List.mem_append.mp hf' with h | h
            · exact hacc f h
            · simp at h
              subst h
              exact hok1
          rcases ih toks1 U (acc ++ [fld]) hw1 hu hsm hacc1 with
            ⟨e, heqr, hsyn⟩ | ⟨flds, toks2, heqr, hw2, hlen2, hok2⟩
          · left
            exact ⟨e, by simp [parseStructFields, peekTok, bind, Except.bind, hbr, heqf, heqr],
              hsyn⟩
          · right
            refine ⟨flds, toks2, ?_, hw2, ?_, hok2⟩
            · simp [parseStructFields, peekTok, bind, Except.bind, hbr, heqf, heqr]
            · simp only [List.length_cons] at hlen1 ⊢
              omega

theorem parseStruct_cases (toks : List Token) (U : List String)
    (hw : WfToks toks) (hu : WfU U) :
    (∃ e, parseStruct toks U = .error e ∧ IsSynE e) ∨
    (∃ sd toks' U', parseStruct toks U = .ok (sd, toks', U') ∧ WfToks toks' ∧
       toks'.length < toks.length ∧ U' = U ++ [sd.name] ∧ sd.name ∉ U ∧
       sd.name ∉ builtinTypes ∧ sd.name ≠ "" ∧ (∀ fld ∈ sd.fields, TypeOkF U fld) ∧
       sd.fields ≠ []) := by
  rcases expectTok_cases toks .keyword (some "struct") hw (by decide) with
    ⟨e, heq1, hsyn⟩ | ⟨kwTok, toks1, hts1, heq1, hk1, hi1, hw1, hlen1⟩
  · left
    exact ⟨e, by simp [parseStruct, bind, Except.bind, heq1], hsyn⟩
  · rcases expectTok_cases toks1 .ident none hw1 (by decide) with
      ⟨e, heq2, hsyn⟩ | ⟨nameTok, toks2, hts2, heq2, hk2, hi2, hw2, hlen2⟩
    · left
      exact ⟨e, by simp [parseStruct, bind, Except.bind, heq1, heq2], hsyn⟩
    · by_cases hdup : nameTok.value ∈ U ∨ nameTok.value ∈ builtinTypes
      · left
        exact ⟨.typeAlreadyDefined nameTok.line nameTok.value,
          by simp [parseStruct, bind, Except.bind, heq1, heq2, hdup],
          by constructor <;> simp⟩
      · rcases expectTok_cases toks2 .symbol (some "\x7b") hw2 (by decide) with
          ⟨e, heq3, hsyn⟩ | ⟨lbTok, toks3, hts3, heq3, hk3, hi3, hw3, hlen3⟩
        · left
          exact ⟨e, by simp [parseStruct, bind, Except.bind, heq1, heq2, hdup, heq3], hsyn⟩
        · rcases parseStructFields_cases (toks3.length + 1) toks3 U [] hw3 hu
            (Nat.lt_succ_self _) (by simp) with
            ⟨e, heqv, hsyn⟩ | ⟨flds, toks4, heqv, hw4, hlen4, hok4⟩
          · left
            exact ⟨e, by simp [parseStruct, bind, Except.bind, heq1, heq2, hdup, heq3, heqv],
              hsyn⟩
          · rcases expectTok_cases toks4 .symbol (some "\x7d") hw4 (by decide) with
              ⟨e, heq5, hsyn⟩ | ⟨rbTok, toks5, hts5, heq5, hk5, hi5, hw5, hlen5⟩
            · left
              exact ⟨e,
                by simp [parseStruct, bind, Except.bind, heq1, heq2, hdup, heq3, heqv, heq5],
                hsyn⟩
            · rcases expectTok_cases toks5 .symbol (some ";") hw5 (by decide) with
                ⟨e, heq6, hsyn⟩ | ⟨semiTok, toks6, hts6, heq6, hk6, hi6, hw6, hlen6⟩
              · left
                exact ⟨e,
                  by simp [parseStruct, bind, Except.bind, heq1, heq2, hdup, heq3, heqv,
                    heq5, heq6],
                  hsyn⟩
              · by_cases hempty : flds.isEmpty
                · left
                  exact ⟨.structHasNoFields nameTok.line nameTok.value,
                    by simp [parseStruct, bind, Except.bind, heq1, heq2, hdup, heq3, heqv,
                      heq5, heq6, hempty],
                    by constructor <;> simp⟩
                · right
                  refine ⟨{ name := nameTok.value, fields := flds }, toks6,
                    U ++ [nameTok.value], ?_, hw6, ?_, by simp, ?_, ?_, hi2 hk2,
                    by simpa using hok4, by simpa [List.isEmpty_iff] using hempty⟩
                  · simp [parseStruct, bind, Except.bind, heq1, heq2, hdup, heq3, heqv,
                      heq5, heq6, hempty]
                  · subst hts1
                    subst hts5
                    subst hts6
                    simp at hlen2 hlen3 ⊢
                    omega
                  · intro hmem
                    exact hdup (Or.inl hmem)
                  · intro hmem
                    exact hdup (Or.inr hmem)

theorem parseMethodsLoop_cases (fuel : Nat) :
    ∀ toks U acc, WfToks toks → WfU U → toks.length < fuel →
    (∀ m ∈ acc, ∀ p ∈ Method.params m, TypeOkP U p) →
    (∃ e, parseMethodsLoop fuel toks U acc = .error e ∧ IsSynE e) ∨
    (∃ ms toks', parseMethodsLoop fuel toks U acc = .ok (ms, toks') ∧ WfToks toks' ∧
       toks'.length ≤ toks.length ∧ ∀ m ∈ ms, ∀ p ∈ Method.params m, TypeOkP U p) := by
  induction fuel with
  | zero => intro toks U acc hw hu hf hacc; omega
  | succ fuel ih =>
    intro toks U acc hw hu hf hacc
    cases toks with
    | nil => exact absurd rfl hw.ne_nil
    | cons t rest =>
      by_cases hbr : t.value = "\x7d"
      · right
        exact ⟨acc, t :: rest, by simp [parseMethodsLoop, peekTok, bind, Except.bind, hbr],
          hw, Nat.le_refl _, hacc⟩
      · rcases parseMethod_cases (t :: rest) U hw hu with
          ⟨e, heqm, hsyn⟩ | ⟨m, toks1, heqm, hw1, hlen1, hok1, -⟩
        · left
          exact ⟨e, by simp [parseMethodsLoop, peekTok, bind, Except.bind, hbr, heqm], hsyn⟩
        · have hsm : toks1.length < fuel := by
            simp only [List.length_cons] at hf hlen1
            omega
          have hacc1 : ∀ m' ∈ acc ++ [m], ∀ p ∈ Method.params m', TypeOkP U p := by
            intro m' hm' p hp
            rcases List.mem_append.mp hm' with h | h
            · exact hacc m' h p hp
            · simp at h
              subst h
              exact hok1 p hp
          rcases ih toks1 U (acc ++ [m]) hw1 hu hsm hacc1 with
            ⟨e, heqr, hsyn⟩ | ⟨ms, toks2, heqr, hw2, hlen2, hok2⟩
          · left
            exact ⟨e, by simp [parseMethodsLoop, peekTok, bind, Except.bind, hbr, heqm, heqr],
              hsyn⟩
          · right
            refine ⟨ms, toks2, ?_, hw2, ?_, hok2⟩
            · simp [parseMethodsLoop, peekTok, bind, Except.bind, hbr, heqm, heqr]
            · simp only [List.length_cons] at hlen1 ⊢
              omega

theorem parseNotifsLoop_cases (fuel : Nat) :
    ∀ toks U acc, WfToks toks → WfU U → toks.length < fuel →
    (∀ nt ∈ acc, ∀ p ∈ Notification.params nt, TypeOkP U p) →
    (∃ e, parseNotifsLoop fuel toks U acc = .error e ∧ IsSynE e) ∨
    (∃ ns toks', parseNotifsLoop fuel toks U acc = .ok (ns, toks') ∧ WfToks toks' ∧
       toks'.length ≤ toks.length ∧ ∀ nt ∈ ns, ∀ p ∈ Notification.params nt, TypeOkP U p) := by
  induction fuel with
  | zero => intro toks U acc hw hu hf hacc; omega
  | succ fuel ih =>
    intro toks U acc hw hu hf hacc
    cases toks with
    | nil => exact absurd rfl hw.ne_nil
    | cons t rest =>
      by_cases hbr : t.value = "\x7d"
      · right
        exact ⟨acc, t :: rest, by simp [parseNotifsLoop, peekTok, bind, Except.bind, hbr],
          hw, Nat.le_refl _, hacc⟩
      · rcases parseNotification_cases (t :: rest) U hw hu with
          ⟨e, heqm, hsyn⟩ | ⟨nt, toks1, heqm, hw1, hlen1, hok1, -⟩
        · left
          exact ⟨e, by simp [parseNotifsLoop, peekTok, bind, Except.bind, hbr, heqm], hsyn⟩
        · have hsm : toks1.length < fuel := by
            simp only [List.length_cons] at hf hlen1
            omega
          have hacc1 : ∀ n' ∈ acc ++ [nt], ∀ p ∈ Notification.params n', TypeOkP U p := by
            intro n' hn' p hp
            rcases List.mem_append.mp hn' with h | h
            · exact hacc n' h p hp
            · simp at h
              subst h
              exact hok1 p hp
          rcases ih toks1 U (acc ++ [nt]) hw1 hu hsm hacc1 with
            ⟨e, heqr, hsyn⟩ | ⟨ns, toks2, heqr, hw2, hlen2, hok2⟩
          · left
            exact ⟨e, by simp [parseNotifsLoop, peekTok, bind, Except.bind, hbr, heqm, heqr],
              hsyn⟩
          · right
            refine ⟨ns, toks2, ?_, hw2, ?_, hok2⟩
            · simp [parseNotifsLoop, peekTok, bind, Except.bind, hbr, heqm, heqr]
            · simp only [List.length_cons] at hlen1 ⊢
              omega

theorem parseService_cases (toks : List Token) (U : List String) (serviceName : String)
    (hw : WfToks toks) (hu : WfU U) :
    (∃ e, parseService toks U serviceName = .error e ∧ IsSynE e) ∨
    (∃ nm ms toks', parseService toks U serviceName = .ok (nm, ms, toks') ∧ WfToks toks' ∧
       toks'.length < toks.length ∧ (serviceName = "" ∨ nm = serviceName) ∧ nm ≠ "" ∧
       ∀ m ∈ ms, ∀ p ∈ Method.params m, TypeOkP U p) := by
  rcases expectTok_cases toks .keyword (some "service") hw (by decide) with
    ⟨e, heq1, hsyn⟩ | ⟨kwTok, toks1, hts1, heq1, hk1, hi1, hw1, hlen1⟩
  · left
    exact ⟨e, by simp [parseService, bind, Except.bind, heq1], hsyn⟩
  · rcases expectTok_cases toks1 .ident none hw1 (by decide) with
      ⟨e, heq2, hsyn⟩ | ⟨nameTok, toks2, hts2, heq2, hk2, hi2, hw2, hlen2⟩
    · left
      exact ⟨e, by simp [parseService, bind, Except.bind, heq1, heq2], hsyn⟩
    · by_cases hmis : serviceName ≠ "" ∧ serviceName ≠ nameTok.value
      · left
        exact ⟨.serviceNameMismatch nameTok.line nameTok.value serviceName,
          by simp [parseService, bind, Except.bind, heq1, heq2, hmis],
          by constructor <;> simp⟩
      · rcases expectTok_cases toks2 .symbol (some "\x7b") hw2 (by decide) with
          ⟨e, heq3, hsyn⟩ | ⟨lbTok, toks3, hts3, heq3, hk3, hi3, hw3, hlen3⟩
        · left
          exact ⟨e, by simp [parseService, bind, Except.bind, heq1, heq2, hmis, heq3], hsyn⟩
        · rcases parseMethodsLoop_cases (toks3.length + 1) toks3 U [] hw3 hu
            (Nat.lt_succ_self _) (by simp) with
            ⟨e, heqv, hsyn⟩ | ⟨ms, toks4, heqv, hw4, hlen4, hok4⟩
          · left
            exact ⟨e, by simp [parseService, bind, Except.bind, heq1, heq2, hmis, heq3, heqv],
              hsyn⟩
          · rcases expectTok_cases toks4 .symbol (some "\x7d") hw4 (by decide) with
              ⟨e, heq5, hsyn⟩ | ⟨rbTok, toks5, hts5, heq5, hk5, hi5, hw5, hlen5⟩
            · left
              exact ⟨e,
                by simp [parseService, bind, Except.bind, heq1, heq2, hmis, heq3, heqv, heq5],
                hsyn⟩
            · rcases expectTok_cases toks5 .symbol (some ";") hw5 (by decide) with
                ⟨e, heq6, hsyn⟩ | ⟨semiTok, toks6, hts6, heq6, hk6, hi6, hw6, hlen6⟩
              · left
                exact ⟨e,
                  by simp [parseService, bind, Except.bind, heq1, heq2, hmis, heq3, heqv,
                    heq5, heq6],
                  hsyn⟩
              · right
                refine ⟨nameTok.value, ms, toks6, ?_, hw6, ?_, ?_, hi2 hk2, hok4⟩
                · simp [parseService, bind, Except.bind, heq1, heq2, hmis, heq3, heqv,
                    heq5, heq6]
                · subst hts1
                  subst hts5
                  subst hts6
                  simp at hlen2 hlen3 ⊢
                  omega
                · by_cases hsn : serviceName = ""
                  · exact Or.inl hsn
                  · refine Or.inr ?_
                    by_cases heqn : serviceName = nameTok.value
                    · exact heqn.symm
                    · exact absurd ⟨hsn, heqn⟩ hmis

theorem parseNotifications_cases (toks : List Token) (U : List String) (serviceName : String)
    (hw : WfToks toks) (hu : WfU U) :
    (∃ e, parseNotifications toks U serviceName = .error e ∧ IsSynE e) ∨
    (∃ nm ns toks', parseNotifications toks U serviceName = .ok (nm, ns, toks') ∧
       WfToks toks' ∧ toks'.length < toks.length ∧ (serviceName = "" ∨ nm = serviceName) ∧
       nm ≠ "" ∧ ∀ nt ∈ ns, ∀ p ∈ Notification.params nt, TypeOkP U p) := by
  rcases expectTok_cases toks .keyword (some "notifications") hw (by decide) with
    ⟨e, heq1, hsyn⟩ | ⟨kwTok, toks1, hts1, heq1, hk1, hi1, hw1, hlen1⟩
  · left
    exact ⟨e, by simp [parseNotifications, bind, Except.bind, heq1], hsyn⟩
  · rcases expectTok_cases toks1 .ident none hw1 (by decide) with
      ⟨e, heq2, hsyn⟩ | ⟨nameTok, toks2, hts2, heq2, hk2, hi2, hw2, hlen2⟩
    · left
      exact ⟨e, by simp [parseNotifications, bind, Except.bind, heq1, heq2], hsyn⟩
    · by_cases hmis : serviceName ≠ "" ∧ serviceName ≠ nameTok.value
      · left
        exact ⟨.notificationsNameMismatch nameTok.line nameTok.value serviceName,
          by simp [parseNotifications, bind, Except.bind, heq1, heq2, hmis],
          by constructor <;> simp⟩
      · rcases expectTok_cases toks2 .symbol (some "\x7b") hw2 (by decide) with
          ⟨e, heq3, hsyn⟩ | ⟨lbTok, toks3, hts3, heq3, hk3, hi3, hw3, hlen3⟩
        · left
          exact ⟨e, by simp [parseNotifications, bind, Except.bind, heq1, heq2, hmis, heq3],
            hsyn⟩
        · rcases parseNotifsLoop_cases (toks3.length + 1) toks3 U [] hw3 hu
            (Nat.lt_succ_self _) (by simp) with
            ⟨e, heqv, hsyn⟩ | ⟨ns, toks4, heqv, hw4, hlen4, hok4⟩
          · left
            exact ⟨e,
              by simp [parseNotifications, bind, Except.bind, heq1, heq2, hmis, heq3, heqv],
              hsyn⟩
          · rcases expectTok_cases toks4 .symbol (some "\x7d") hw4 (by decide) with
              ⟨e, heq5, hsyn⟩ | ⟨rbTok, toks5, hts5, heq5, hk5, hi5, hw5, hlen5⟩
            · left
              exact ⟨e,
                by simp [parseNotifications, bind, Except.bind, heq1, heq2, hmis, heq3,
                  heqv, heq5],
                hsyn⟩
            · rcases expectTok_cases toks5 .symbol (some ";") hw5 (by decide) with
                ⟨e, heq6, hsyn⟩ | ⟨semiTok, toks6, hts6, heq6, hk6, hi6, hw6, hlen6⟩
              · left
                exact ⟨e,
                  by simp [parseNotifications, bind, Except.bind, heq1, heq2, hmis, heq3,
                    heqv, heq5, heq6],
                  hsyn⟩
              · right
                refine ⟨nameTok.value, ns, toks6, ?_, hw6, ?_, ?_, hi2 hk2, hok4⟩
                · simp [parseNotifications, bind, Except.bind, heq1, heq2, hmis, heq3,
                    heqv, heq5, heq6]
                · subst hts1
                  subst hts5
                  subst hts6
                  simp at hlen2 hlen3 ⊢
                  omega
                · by_cases hsn : serviceName = ""
                  · exact Or.inl hsn
                  · refine Or.inr ?_
                    by_cases heqn : serviceName = nameTok.value
                    · exact heqn.symm
                    · exact absurd ⟨hsn, heqn⟩ hmis

theorem parseLoop_cases (fuel : Nat) :
    ∀ toks U idl, WfToks toks → WfU U → toks.length < fuel →
    (∀ x, x ∈ U ↔ x ∈ typeNames idl) →
    (typeNames idl).Nodup →
    (∀ x ∈ typeNames idl, x ∉ builtinTypes) →
    (∀ i : Fin idl.structs.length, ∀ fld ∈ (idl.structs.get i).fields,
       fld.type_name ∈ builtinTypes ∨ fld.type_name ∈ enumNames idl ∨
       fld.type_name ∈ (idl.structs.take i.val).map StructDef.name) →
    (∀ m ∈ idl.methods, ∀ p ∈ Method.params m,
       p.type_name ∈ builtinTypes ∨ p.type_name ∈ typeNames idl) →
    (∀ nt ∈ idl.notifications, ∀ p ∈ Notification.params nt,
       p.type_name ∈ builtinTypes ∨ p.type_name ∈ typeNames idl) →
    (∃ e, parseLoop fuel toks U idl = .error e ∧ IsSynE e) ∨
    (∃ idl', parseLoop fuel toks U idl = .ok idl' ∧ UniqueTypeNames idl' ∧
       DeclBeforeUse idl' ∧ (idl.service_name ≠ "" → idl'.service_name = idl.service_name)) := by
  induction fuel with
  | zero => intro toks U idl hw hu hf hUiff hnodup hnb hdbu hmp hnp; omega
  | succ fuel ih =>
    intro toks U idl hw hu hf hUiff hnodup hnb hdbu hmp hnp
    cases toks with
    | nil => exact absurd rfl hw.ne_nil
    | cons t rest =>
      by_cases heof : t.kind = .eof
      · right
        exact ⟨idl, by simp [parseLoop, peekTok, bind, Except.bind, heof],
          ⟨hnodup, hnb⟩, ⟨hdbu, hmp, hnp⟩, fun _ => rfl⟩
      · by_cases henum : t.kind = .keyword ∧ t.value = "enum"
        · rcases parseEnum_cases (t :: rest) U hw hu with
            ⟨e, heqe, hsyn⟩ | ⟨ed, toks1, U1, heqe, hw1, hlen1, hU1, hnotU, hnotB, hne⟩
          · left
            exact ⟨e,
              by simp [parseLoop, peekTok, bind, Except.bind, heof, henum.1, henum.2, heqe],
              hsyn⟩
          · have hidl1 : typeNames { idl with enums := idl.enums ++ [ed] } =
                enumNames idl ++ ed.name :: structNames idl := by
              simp [typeNames, enumNames, structNames]
            have hnotT : ed.name ∉ typeNames idl := fun hmem => hnotU ((hUiff ed.name).mpr hmem)
            have hUiff1 : ∀ x, x ∈ U1 ↔ x ∈ typeNames { idl with enums := idl.enums ++ [ed] } := by
              intro x
              rw [hidl1, hU1]
              have hbase := hUiff x
              simp only [typeNames, List.mem_append] at hbase
              simp only [List.mem_append, List.mem_cons, List.mem_singleton]
              tauto
            have hnodup1 : (typeNames { idl with enums := idl.enums ++ [ed] }).Nodup := by
              rw [hidl1, List.nodup_middle, List.nodup_cons]
              exact ⟨hnotT, hnodup⟩
            have hnb1 : ∀ x ∈ typeNames { idl with enums := idl.enums ++ [ed] },
                x ∉ builtinTypes := by
              intro x hx
              rw [hidl1] at hx
              rcases List.mem_append.mp hx with hx | hx
              · exact hnb x (List.mem_append.mpr (Or.inl hx))
              · rcases List.mem_cons.mp hx with hx | hx
                · subst hx
                  exact hnotB
                · exact hnb x (List.mem_append.mpr (Or.inr hx))
            have hdbu1 : ∀ i : Fin ({ idl with enums := idl.enums ++ [ed] } : IdlFile).structs.length,
                ∀ fld ∈ (({ idl with enums := idl.enums ++ [ed] } : IdlFile).structs.get i).fields,
                fld.type_name ∈ builtinTypes ∨
                fld.type_name ∈ enumNames { idl with enums := idl.enums ++ [ed] } ∨
                fld.type_name ∈
                  (({ idl with enums := idl.enums ++ [ed] } : IdlFile).structs.take i.val).map
                    StructDef.name := by
              intro i fld hfld
              rcases hdbu i fld hfld with h | h | h
              · exact Or.inl h
              · refine Or.inr (Or.inl ?_)
                simp only [enumNames] at h ⊢
                simp only [List.map_append]
                exact List.mem_append.mpr (Or.inl h)
              · exact Or.inr (Or.inr h)
            have hmp1 : ∀ m ∈ ({ idl with enums := idl.enums ++ [ed] } : IdlFile).methods,
                ∀ p ∈ Method.params m, p.type_name ∈ builtinTypes ∨
                p.type_name ∈ typeNames { idl with enums := idl.enums ++ [ed] } := by
              intro m hm p hp
              rcases hmp m hm p hp with h | h
              · exact Or.inl h
              · refine Or.inr ?_
                rw [hidl1]
                rcases List.mem_append.mp h with h | h
                · exact List.mem_append.mpr (Or.inl h)
                · exact List.mem_append.mpr (Or.inr (List.mem_cons_of_mem _ h))
            have hnp1 : ∀ nt ∈ ({ idl with enums := idl.enums ++ [ed] } : IdlFile).notifications,
                ∀ p ∈ Notification.params nt, p.type_name ∈ builtinTypes ∨
                p.type_name ∈ typeNames { idl with enums := idl.enums ++ [ed] } := by
              intro nt hnt p hp
              rcases hnp nt hnt p hp with h | h
              · exact Or.inl h
              · refine Or.inr ?_
                rw [hidl1]
                rcases List.mem_append.mp h with h | h
                · exact List.mem_append.mpr (Or.inl h)
                · exact List.mem_append.mpr (Or.inr (List.mem_cons_of_mem _ h))
            have hu1 : WfU U1 := hU1 ▸ wfU_append hu hne
            have hsm : toks1.length < fuel := by
              simp only [List.length_cons] at hf hlen1
              omega
            rcases ih toks1 U1 { idl with enums := idl.enums ++ [ed] } hw1 hu1 hsm hUiff1
              hnodup1 hnb1 hdbu1 hmp1 hnp1 with
              ⟨e, heqr, hsyn⟩ | ⟨idl', heqr, huniq, hdbu', hsvc⟩
            · left
              exact ⟨e,
                by simp [parseLoop, peekTok, bind, Except.bind, heof, henum.1, henum.2, heqe,
                  heqr],
                hsyn⟩
            · right
              exact ⟨idl',
                by simp [parseLoop, peekTok, bind, Except.bind, heof, henum.1, henum.2, heqe,
                  heqr],
                huniq, hdbu', hsvc⟩
        · by_cases hstructB : t.kind = .keyword ∧ t.value = "struct"
          · rcases parseStruct_cases (t :: rest) U hw hu with
              ⟨e, heqe, hsyn⟩ | ⟨sd, toks1, U1, heqe, hw1, hlen1, hU1, hnotU, hnotB, hne,
                hflds, hfne⟩
            · left
              exact ⟨e,
                by simp [parseLoop, peekTok, bind, Except.bind, heof, henum, hstructB.1,
                  hstructB.2, heqe],
                hsyn⟩
            · have hidl1 : typeNames { idl with structs := idl.structs ++ [sd] } =
                  typeNames idl ++ [sd.name] := by
                simp [typeNames, enumNames, structNames]
              have hnotT : sd.name ∉ typeNames idl := fun hmem =>
                hnotU ((hUiff sd.name).mpr hmem)
              have hUiff1 : ∀ x, x ∈ U1 ↔
                  x ∈ typeNames { idl with structs := idl.structs ++ [sd] } := by
                intro x
                rw [hidl1, hU1]
                have hbase := hUiff x
                simp only [List.mem_append, List.mem_singleton]
                tauto
              have hnodup1 : (typeNames { idl with structs := idl.structs ++ [sd] }).Nodup := by
                rw [hidl1, List.nodup_middle, List.nodup_cons]
                constructor
                · simpa using hnotT
                · simpa using hnodup
              have hnb1 : ∀ x ∈ typeNames { idl with structs := idl.structs ++ [sd] },
                  x ∉ builtinTypes := by
                intro x hx
                rw [hidl1] at hx
                rcases List.mem_append.mp hx with hx | hx
                · exact hnb x hx
                · rw [List.mem_singleton] at hx
                  subst hx
                  exact hnotB
              have hdbu1 : ∀ i : Fin ({ idl with structs := idl.structs ++ [sd] } :
                    IdlFile).structs.length,
                  ∀ fld ∈ (({ idl with structs := idl.structs ++ [sd] } :
                    IdlFile).structs.get i).fields,
                  fld.type_name ∈ builtinTypes ∨
                  fld.type_name ∈ enumNames { idl with structs := idl.structs ++ [sd] } ∨
                  fld.type_name ∈
                    (({ idl with structs := idl.structs ++ [sd] } : IdlFile).structs.take
                      i.val).map StructDef.name := by
                intro i fld hfld
                obtain ⟨iv, hlt⟩ := i
                simp only [List.get_eq_getElem] at hfld
                by_cases hiv : iv < idl.structs.length
                · have hget : (idl.structs ++ [sd])[iv] = idl.structs[iv] :=
                    List.getElem_append_left hiv
                  rw [hget] at hfld
                  rcases hdbu ⟨iv, hiv⟩ fld (by simpa using hfld) with h | h | h
                  · exact Or.inl h
                  · exact Or.inr (Or.inl (by simpa [enumNames] using h))
                  · refine Or.inr (Or.inr ?_)
                    have htake : (idl.structs ++ [sd]).take iv = idl.structs.take iv := by
                      rw [List.take_append_eq_append_take]
                      have hz : iv - idl.structs.length = 0 := by omega
                      simp [hz]
                    simp only [htake]
                    simpa using h
                · have hiv2 : iv = idl.structs.length := by
                    simp only [List.length_append, List.length_singleton] at hlt
                    omega
                  subst hiv2
                  have hget : (idl.structs ++ [sd])[idl.structs.length] = sd := by
                    simp
                  rw [hget] at hfld
                  rcases hflds fld hfld with h | h
                  · exact Or.inl h
                  · have hT : fld.type_name ∈ typeNames idl := (hUiff fld.type_name).mp h
                    rcases List.mem_append.mp hT with h2 | h2
                    · exact Or.inr (Or.inl (by simpa [enumNames] using h2))
                    · refine Or.inr (Or.inr ?_)
                      have htake : (idl.structs ++ [sd]).take idl.structs.length =
                          idl.structs := List.take_left _ _
                      simp only [htake]
                      simpa [structNames] using h2
              have hmp1 : ∀ m ∈ ({ idl with structs := idl.structs ++ [sd] } :
                    IdlFile).methods,
                  ∀ p ∈ Method.params m, p.type_name ∈ builtinTypes ∨
                  p.type_name ∈ typeNames { idl with structs := idl.structs ++ [sd] } := by
                intro m hm p hp
                rcases hmp m hm p hp with h | h
                · exact Or.inl h
                · exact Or.inr (by rw [hidl1]; exact List.mem_append.mpr (Or.inl h))
              have hnp1 : ∀ nt ∈ ({ idl with structs := idl.structs ++ [sd] } :
                    IdlFile).notifications,
                  ∀ p ∈ Notification.params nt, p.type_name ∈ builtinTypes ∨
                  p.type_name ∈ typeNames { idl with structs := idl.structs ++ [sd] } := by
                intro nt hnt p hp
                rcases hnp nt hnt p hp with h | h
                · exact Or.inl h
                · exact Or.inr (by rw [hidl1]; exact List.mem_append.mpr (Or.inl h))
              have hu1 : WfU U1 := hU1 ▸ wfU_append hu hne
              have hsm : toks1.length < fuel := by
                simp only [List.length_cons] at hf hlen1
                omega
              rcases ih toks1 U1 { idl with structs := idl.structs ++ [sd] } hw1 hu1 hsm
                hUiff1 hnodup1 hnb1 hdbu1 hmp1 hnp1 with
                ⟨e, heqr, hsyn⟩ | ⟨idl', heqr, huniq, hdbu', hsvc⟩
              · left
                exact ⟨e,
                  by simp [parseLoop, peekTok, bind, Except.bind, heof, henum, hstructB.1,
                    hstructB.2, heqe, heqr],
                  hsyn⟩
              · right
                exact ⟨idl',
                  by simp [parseLoop, peekTok, bind, Except.bind, heof, henum, hstructB.1,
                    hstructB.2, heqe, heqr],
                  huniq, hdbu', hsvc⟩
          · by_cases hsvcB : t.kind = .keyword ∧ t.value = "service"
            · rcases parseService_cases (t :: rest) U idl.service_name hw hu with
                ⟨e, heqe, hsyn⟩ | ⟨nm, ms, toks1, heqe, hw1, hlen1, hnm, hnmne, hok⟩
              · left
                exact ⟨e,
                  by simp [parseLoop, peekTok, bind, Except.bind, heof, henum, hstructB,
                    hsvcB.1, hsvcB.2, heqe],
                  hsyn⟩
              · have hidl1 : typeNames { idl with service_name := nm, methods := idl.methods ++ ms } = typeNames idl := by
                  simp [typeNames, enumNames, structNames]
                have hsm : toks1.length < fuel := by
                  simp only [List.length_cons] at hf hlen1
                  omega
                have hmp1 : ∀ m ∈ ({ idl with service_name := nm, methods := idl.methods ++ ms } : IdlFile).methods,
                    ∀ p ∈ Method.params m, p.type_name ∈ builtinTypes ∨
                    p.type_name ∈ typeNames { idl with service_name := nm, methods := idl.methods ++ ms } := by
                  intro m hm p hp
                  rw [hidl1]
                  rcases List.mem_append.mp hm with hm | hm
                  · exact hmp m hm p hp
                  · rcases hok m hm p hp with h | h
                    · exact Or.inl h
                    · exact Or.inr ((hUiff p.type_name).mp h)
                rcases ih toks1 U { idl with service_name := nm, methods := idl.methods ++ ms } hw1 hu hsm
                    (by intro x; rw [hidl1]; exact hUiff x)
                    (by rw [hidl1]; exact hnodup)
                    (by rw [hidl1]; exact hnb)
                    (by intro i fld hfld
                        exact hdbu i fld hfld)
                    hmp1
                    (by intro nt hnt p hp
                        rw [hidl1]
                        exact hnp nt hnt p hp) with
                  ⟨e, heqr, hsyn⟩ | ⟨idl', heqr, huniq, hdbu', hsvc⟩
                · left
                  exact ⟨e,
                    by simp [parseLoop, peekTok, bind, Except.bind, heof, henum, hstructB,
                      hsvcB.1, hsvcB.2, heqe, heqr],
                    hsyn⟩
                · right
                  refine ⟨idl',
                    by simp [parseLoop, peekTok, bind, Except.bind, heof, henum, hstructB,
                      hsvcB.1, hsvcB.2, heqe, heqr],
                    huniq, hdbu', ?_⟩
                  intro hne0
                  have hnm2 : nm = idl.service_name := by
                    rcases hnm with h | h
                    · exact absurd h hne0
                    · exact h
                  have : idl'.service_name = nm := by
                    apply hsvc
                    simp only []
                    rw [hnm2]
                    exact hne0
                  rw [this, hnm2]
            · by_cases hntfB : t.kind = .keyword ∧ t.value = "notifications"
              · rcases parseNotifications_cases (t :: rest) U idl.service_name hw hu with
                  ⟨e, heqe, hsyn⟩ | ⟨nm, ns, toks1, heqe, hw1, hlen1, hnm, hnmne, hok⟩
                · left
                  exact ⟨e,
                    by simp [parseLoop, peekTok, bind, Except.bind, heof, henum, hstructB,
                      hsvcB, hntfB.1, hntfB.2, heqe],
                    hsyn⟩
                · have hidl1 : typeNames { idl with service_name := nm, notifications := idl.notifications ++ ns } = typeNames idl := by
                    simp [typeNames, enumNames, structNames]
                  have hsm : toks1.length < fuel := by
                    simp only [List.length_cons] at hf hlen1
                    omega
                  have hnp1 : ∀ nt ∈ ({ idl with service_name := nm, notifications := idl.notifications ++ ns } : IdlFile).notifications,
                      ∀ p ∈ Notification.params nt, p.type_name ∈ builtinTypes ∨
                      p.type_name ∈ typeNames { idl with service_name := nm, notifications := idl.notifications ++ ns } := by
                    intro nt hnt p hp
                    rw [hidl1]
                    rcases List.mem_append.mp hnt with hnt | hnt
                    · exact hnp nt hnt p hp
                    · rcases hok nt hnt p hp with h | h
                      · exact Or.inl h
                      · exact Or.inr ((hUiff p.type_name).mp h)
                  rcases ih toks1 U { idl with service_name := nm, notifications := idl.notifications ++ ns } hw1 hu hsm
                      (by intro x; rw [hidl1]; exact hUiff x)
                      (by rw [hidl1]; exact hnodup)
                      (by rw [hidl1]; exact hnb)
                      (by intro i fld hfld
                          exact hdbu i fld hfld)
                      (by intro m hm p hp
                          rw [hidl1]
                          exact hmp m hm p hp)
                      hnp1 with
                    ⟨e, heqr, hsyn⟩ | ⟨idl', heqr, huniq, hdbu', hsvc⟩
                  · left
                    exact ⟨e,
                      by simp [parseLoop, peekTok, bind, Except.bind, heof, henum, hstructB,
                        hsvcB, hntfB.1, hntfB.2, heqe, heqr],
                      hsyn⟩
                  · right
                    refine ⟨idl',
                      by simp [parseLoop, peekTok, bind, Except.bind, heof, henum, hstructB,
                        hsvcB, hntfB.1, hntfB.2, heqe, heqr],
                      huniq, hdbu', ?_⟩
                    intro hne0
                    have hnm2 : nm = idl.service_name := by
                      rcases hnm with h | h
                      · exact absurd h hne0
                      · exact h
                    have : idl'.service_name = nm := by
                      apply hsvc
                      simp only []
                      rw [hnm2]
                      exact hne0
                    rw [this, hnm2]
              · left
                exact ⟨.expectedTopLevel t.line t.value,
                  by simp [parseLoop, peekTok, bind, Except.bind, heof, henum, hstructB,
                    hsvcB, hntfB],
                  by constructor <;> simp⟩

theorem parseTokens_cases (toks : List Token) (hw : WfToks toks) :
    (∃ e, parseTokens toks = .error e ∧ IsSynE e) ∨
    (∃ idl, parseTokens toks = .ok idl ∧ UniqueTypeNames idl ∧ DeclBeforeUse idl ∧
       idl.service_name ≠ "") := by
  rcases parseLoop_cases (toks.length + 1) toks [] { service_name := "" } hw
      (fun x hx => absurd hx (List.not_mem_nil x)) (Nat.lt_succ_self _)
      (fun x => by simp [typeNames, enumNames, structNames])
      (by simp [typeNames, enumNames, structNames])
      (by simp [typeNames, enumNames, structNames])
      (fun i => absurd i.isLt (by simp))
      (by simp)
      (by simp) with
    ⟨e, heqr, hsyn⟩ | ⟨idl', heqr, huniq, hdbu, -⟩
  · left
    exact ⟨e, by simp [parseTokens, bind, Except.bind, heqr], hsyn⟩
  · by_cases hempty : idl'.service_name = ""
    · left
      exact ⟨.noServiceBlock, by simp [parseTokens, bind, Except.bind, heqr, hempty],
        by constructor <;> simp⟩
    · right
      exact ⟨idl', by simp [parseTokens, bind, Except.bind, heqr, hempty], huniq, hdbu,
        hempty⟩

theorem dropWhile_len_le (p : Char → Bool) (l : List Char) :
    (l.dropWhile p).length ≤ l.length := by
  induction l with
  | nil => simp
  | cons c cs ih =>
    rw [List.dropWhile_cons]
    split
    · exact Nat.le_trans ih (Nat.le_succ _)
    · exact Nat.le_refl _

theorem tokenizeGo_wf (fuel : Nat) :
    ∀ cs line acc ts, (∀ t ∈ acc, t.kind = .ident → t.value ≠ "") →
    tokenizeGo fuel cs line acc = .ok ts → WfToks ts := by
  induction fuel with
  | zero => intro cs line acc ts hacc h; simp [tokenizeGo] at h
  | succ fuel ih =>
    intro cs line acc ts hacc h
    cases cs with
    | nil =>
      simp only [tokenizeGo] at h
      cases h
      constructor
      · exact ⟨line, List.getLast?_concat _⟩
      · intro t ht hk
        rcases List.mem_append.mp ht with h1 | h1
        · exact hacc t h1 hk
        · simp at h1
          subst h1
          simp at hk
    | cons c rest =>
      simp only [tokenizeGo] at h
      split at h
      · exact ih _ _ _ _ hacc h
      · split at h
        · exact ih _ _ _ _ hacc h
        · split at h
          · exact ih _ _ _ _ hacc h
          · split at h
            · split at h
              · exact absurd h (by simp)
              · exact ih _ _ _ _ hacc h
            · split at h
              · split at h
                · exact absurd h (by simp)
                · refine ih _ _ _ _ ?_ h
                  intro t ht hk
                  rcases List.mem_append.mp ht with h1 | h1
                  · exact hacc t h1 hk
                  · simp at h1
                    subst h1
                    simp at hk
              · split at h
                · refine ih _ _ _ _ ?_ h
                  intro t ht hk
                  rcases List.mem_append.mp ht with h1 | h1
                  · exact hacc t h1 hk
                  · simp at h1
                    subst h1
                    simp at hk
                · split at h
                  · refine ih _ _ _ _ ?_ h
                    intro t ht hk
                    rcases List.mem_append.mp ht with h1 | h1
                    · exact hacc t h1 hk
                    · simp at h1
                      subst h1
                      simp at hk
                  · split at h
                    · refine ih _ _ _ _ ?_ h
                      intro t ht hk
                      rcases List.mem_append.mp ht with h1 | h1
                      · exact hacc t h1 hk
                      · simp at h1
                        subst h1
                        exact asString_ne_empty _ _
                    · exact absurd h (by simp)

theorem tokenize_wf (text : String) (ts : List Token) (h : tokenize text = .ok ts) :
    WfToks ts :=
  tokenizeGo_wf (text.data.length + 1) text.data 1 [] ts (by simp) h

theorem tokenizeGo_err (fuel : Nat) :
    ∀ cs line acc e, cs.length < fuel →
    tokenizeGo fuel cs line acc = .error e → ∃ n, PError.lineOf e = some n := by
  induction fuel with
  | zero => intro cs line acc e hf h; omega
  | succ fuel ih =>
    intro cs line acc e hf h
    cases cs with
    | nil => simp [tokenizeGo] at h
    | cons c rest =>
      simp only [List.length_cons] at hf
      simp only [tokenizeGo] at h
      split at h
      · exact ih _ _ _ _ (by omega) h
      · split at h
        · exact ih _ _ _ _ (by omega) h
        · split at h
          · exact ih _ _ _ _
              (Nat.lt_of_le_of_lt (dropWhile_len_le _ _) (by omega)) h
          · split at h
            · split at h
              · cases h
                exact ⟨line, rfl⟩
              · rename_i k rest2 hfb
                have h1 := findBlockEnd_len rest.tail k rest2 hfb
                have h2 : rest.tail.length ≤ rest.length := by
                  simp [List.length_tail]
                exact ih _ _ _ _ (by omega) h
            · split at h
              · split at h
                · cases h
                  exact ⟨line, rfl⟩
                · rename_i inner rest2 hsp
                  have h1 := splitAtRBracket_len rest inner rest2 hsp
                  exact ih _ _ _ _ (by omega) h
              · split at h
                · exact ih _ _ _ _ (by omega) h
                · split at h
                  · exact ih _ _ _ _
                      (Nat.lt_of_le_of_lt (dropWhile_len_le _ _) (by omega)) h
                  · split at h
                    · exact ih _ _ _ _
                        (Nat.lt_of_le_of_lt (dropWhile_len_le _ _) (by omega)) h
                    · cases h
                      exact ⟨line, rfl⟩

theorem tokenize_err (text : String) (e : PError) (h : tokenize text = .error e) :
    ∃ n, PError.lineOf e = some n :=
  tokenizeGo_err (text.data.length + 1) text.data 1 [] e (Nat.lt_succ_self _) h

theorem compile_ok_props (text : String) (toks : List Token) (idl : IdlFile)
    (h1 : tokenize text = .ok toks) (h2 : parseTokens toks = .ok idl) :
    UniqueTypeNames idl ∧ DeclBeforeUse idl ∧ idl.service_name ≠ "" := by
  rcases parseTokens_cases toks (tokenize_wf text toks h1) with
    ⟨e, heq, -⟩ | ⟨idl', heq, hq, hd, hs⟩
  · rw [h2] at heq
    cases heq
  · rw [h2] at heq
    cases heq
    exact ⟨hq, hd, hs⟩

theorem parseStructField_unknown (typeTok : Token) (rest : List Token) (U : List String)
    (h1 : typeTok.value ∉ builtinTypes) (h2 : typeTok.value ∉ U) :
    parseStructField (typeTok :: rest) U =
      .error (.unknownType typeTok.line typeTok.value) := by
  simp [parseStructField, advanceTok, bind, Except.bind, h1, h2]

theorem parseParam_unknown (attrTok typeTok : Token) (rest : List Token) (U : List String)
    (hk : attrTok.kind = .attr)
    (hd : pyStrip attrTok.value = "in" ∨ pyStrip attrTok.value = "out")
    (h1 : typeTok.value ∉ builtinTypes) (h2 : typeTok.value ∉ U) :
    parseParam (attrTok :: typeTok :: rest) U =
      .error (.unknownType typeTok.line typeTok.value) := by
  rcases hd with hd | hd <;>
    simp [parseParam, expectTok, advanceTok, bind, Except.bind, hk, hd, h1, h2]

theorem parseStructField_ok_type (toks : List Token) (U : List String) (fld : StructField)
    (toks' : List Token) (h : parseStructField toks U = .ok (fld, toks')) :
    fld.type_name ∈ builtinTypes ∨ fld.type_name ∈ U := by
  cases toks with
  | nil => simp [parseStructField, advanceTok, bind, Except.bind] at h
  | cons t rest =>
    simp only [parseStructField, advanceTok, bind, Except.bind] at h
    by_cases hunk : t.value ∉ builtinTypes ∧ t.value ∉ U
    · rw [if_pos hunk] at h
      cases h
    · have hknown : t.value ∈ builtinTypes ∨ t.value ∈ U := by
        rcases not_and_or.mp hunk with h1 | h1
        · exact Or.inl (not_not.mp h1)
        · exact Or.inr (not_not.mp h1)
      rw [if_neg hunk] at h
      repeat' split at h
      all_goals cases h
      all_goals simpa using hknown

theorem parseParam_ok_type (toks : List Token) (U : List String) (p : Param)
    (toks' : List Token) (h : parseParam toks U = .ok (p, toks')) :
    p.type_name ∈ builtinTypes ∨ p.type_name ∈ U := by
  cases toks with
  | nil => simp [parseParam, expectTok, bind, Except.bind] at h
  | cons t rest =>
    simp only [parseParam, expectTok, bind, Except.bind] at h
    repeat' split at h
    all_goals cases h
    all_goals simp only [not_and_or, not_not] at *
    all_goals tauto

theorem parseService_ok_name (toks : List Token) (U : List String) (svc : String)
    (nm : String) (ms : List Method) (toks' : List Token)
    (h : parseService toks U svc = .ok (nm, ms, toks')) : svc = "" ∨ nm = svc := by
  simp only [parseService, expectTok, bind, Except.bind] at h
  repeat' split at h
  all_goals cases h
  all_goals simp only [not_and_or, not_not] at *
  all_goals tauto

theorem parseNotifications_ok_name (toks : List Token) (U : List String) (svc : String)
    (nm : String) (ns : List Notification) (toks' : List Token)
    (h : parseNotifications toks U svc = .ok (nm, ns, toks')) : svc = "" ∨ nm = svc := by
  simp only [parseNotifications, expectTok, bind, Except.bind] at h
  repeat' split at h
  all_goals cases h
  all_goals simp only [not_and_or, not_not] at *
  all_goals tauto

theorem parseMethod_ok_attr (toks : List Token) (U : List String) (m : Method)
    (toks' : List Token) (h : parseMethod toks U = .ok (m, toks')) :
    ∃ attrTok rest, toks = attrTok :: rest ∧
      matchIdAttr methodKey attrTok.value = some m.method_id := by
  cases toks with
  | nil => simp [parseMethod, expectTok, bind, Except.bind] at h
  | cons t rest =>
    refine ⟨t, rest, rfl, ?_⟩
    simp only [parseMethod, expectTok, bind, Except.bind] at h
    by_cases hk : t.kind = .attr
    · simp only [hk, if_true] at h
      repeat' split at h
      all_goals cases h
      all_goals subst_eqs
      all_goals simp_all
    · simp [hk] at h

theorem parseNotification_ok_attr (toks : List Token) (U : List String) (nt : Notification)
    (toks' : List Token) (h : parseNotification toks U = .ok (nt, toks')) :
    ∃ attrTok rest, toks = attrTok :: rest ∧
      matchIdAttr notifyKey attrTok.value = some nt.notify_id := by
  cases toks with
  | nil => simp [parseNotification, expectTok, bind, Except.bind] at h
  | cons t rest =>
    refine ⟨t, rest, rfl, ?_⟩
    simp only [parseNotification, expectTok, bind, Except.bind] at h
    by_cases hk : t.kind = .attr
    · simp only [hk, if_true] at h
      repeat' split at h
      all_goals cases h
      all_goals subst_eqs
      all_goals simp_all
    · simp [hk] at h

theorem dropLit_self (key : List Char) : ∀ cs, dropLit key (key ++ cs) = some cs := by
  induction key with
  | nil => intro cs; rfl
  | cons k ks ih => intro cs; simp [dropLit, ih]

theorem dropWhile_append_all (p : Char → Bool) (l r : List Char) (hl : l.all p = true) :
    (l ++ r).dropWhile p = r.dropWhile p := by
  induction l with
  | nil => rfl
  | cons c cs ih =>
    simp only [List.all_cons, Bool.and_eq_true] at hl
    simp [List.dropWhile_cons, hl.1, ih hl.2]

theorem dropWhile_cons_neg (p : Char → Bool) (c : Char) (r : List Char) (h : p c = false) :
    List.dropWhile p (c :: r) = c :: r := by
  simp [List.dropWhile_cons, h]

theorem takeWhile_all_boundary (p : Char → Bool) (l r : List Char) (hl : l.all p = true)
    (hr : ∀ c, r.head? = some c → p c = false) : (l ++ r).takeWhile p = l := by
  induction l with
  | nil =>
    cases r with
    | nil => rfl
    | cons c rs => simp [List.takeWhile_cons, hr c rfl]
  | cons c cs ih =>
    simp only [List.all_cons, Bool.and_eq_true] at hl
    simp [List.takeWhile_cons, hl.1, ih hl.2]

theorem digit_not_pyspace (c : Char) (h : c.isDigit = true) : isPySpace c = false := by
  cases hs : isPySpace c
  · rfl
  · exfalso
    simp only [isPySpace, Bool.or_eq_true, decide_eq_true_eq] at hs
    rcases hs with ((((h1 | h1) | h1) | h1) | h1) | h1 <;> subst h1 <;>
      simp [Char.isDigit] at h

theorem matchIdAttr_shape (key ws1 ws2 ds tail : List Char)
    (h1 : ws1.all isPySpace = true) (h2 : ws2.all isPySpace = true)
    (h3 : ds ≠ []) (h4 : ds.all Char.isDigit = true)
    (h5 : ∀ c, tail.head? = some c → c.isDigit = false) :
    matchIdAttr key (String.mk (key ++ (ws1 ++ '=' :: (ws2 ++ ds ++ tail)))) =
      some (natOfDigits ds) := by
  have hdl : dropLit key (String.mk (key ++ (ws1 ++ '=' :: (ws2 ++ ds ++ tail)))).data =
      some (ws1 ++ '=' :: (ws2 ++ ds ++ tail)) := dropLit_self key _
  have hdw1 : (ws1 ++ '=' :: (ws2 ++ ds ++ tail)).dropWhile isPySpace =
      '=' :: (ws2 ++ ds ++ tail) := by
    rw [dropWhile_append_all isPySpace ws1 _ h1]
    exact dropWhile_cons_neg _ _ _ (by decide)
  cases ds with
  | nil => exact absurd rfl h3
  | cons d ds' =>
    have hd : d.isDigit = true := by
      simp only [List.all_cons, Bool.and_eq_true] at h4
      exact h4.1
    have hdw2 : ((ws2 ++ (d :: ds') ++ tail).dropWhile isPySpace) = d :: ds' ++ tail := by
      rw [List.append_assoc, dropWhile_append_all isPySpace ws2 _ h2]
      exact dropWhile_cons_neg _ _ _ (digit_not_pyspace d hd)
    have htw : ((d :: ds' ++ tail).takeWhile Char.isDigit) = d :: ds' := by
      have := takeWhile_all_boundary Char.isDigit (d :: ds') tail h4 h5
      simpa using this
    simp only [matchIdAttr, hdl, hdw1, hdw2, htw]
    simp

theorem parseStructField_string_nosize (strTok t2 : Token) (rest : List Token)
    (U : List String) (hv : strTok.value = "string")
    (hna : ¬(t2.kind = .attr ∧ isDigitStr (pyStrip t2.value) = true)) :
    parseStructField (strTok :: t2 :: rest) U = .error (.stringNeedsSize strTok.line) := by
  simp [parseStructField, advanceTok, peekTok, bind, Except.bind, hv, string_mem_builtin,
    hna]

theorem parseStructField_string_size (strTok : Token) (ds nm : String) (la ln ls : Nat)
    (rest : List Token) (U : List String) (n : Nat)
    (hv : strTok.value = "string") (hd : isDigitStr (pyStrip ds) = true)
    (hn : strToNat (pyStrip ds) = n) (h1 : 1 ≤ n) :
    parseStructField
        (strTok :: ⟨.attr, ds, la⟩ :: ⟨.ident, nm, ln⟩ :: ⟨.symbol, ";", ls⟩ :: rest) U =
      .ok ({ type_name := "string", name := nm, array_size := some n }, rest) := by
  subst hn
  have hlt : ¬strToNat (pyStrip ds) < 1 := by omega
  simp [parseStructField, advanceTok, peekTok, expectTok, bind, Except.bind, hv,
    string_mem_builtin, hd, hlt]

theorem parseParam_string_nosize (dirTok strTok t2 : Token) (rest : List Token)
    (U : List String) (hk : dirTok.kind = .attr)
    (hdir : pyStrip dirTok.value = "in" ∨ pyStrip dirTok.value = "out")
    (hv : strTok.value = "string")
    (hna : ¬(t2.kind = .attr ∧ isDigitStr (pyStrip t2.value) = true)) :
    parseParam (dirTok :: strTok :: t2 :: rest) U =
      .error (.stringNeedsSize strTok.line) := by
  rcases hdir with hdir | hdir <;>
    simp [parseParam, expectTok, advanceTok, peekTok, bind, Except.bind, hk, hdir, hv,
      string_mem_builtin, hna]

theorem parseParam_string_size (dirTok strTok : Token) (ds nm : String) (la ln : Nat)
    (rest : List Token) (U : List String) (n : Nat)
    (hk : dirTok.kind = .attr)
    (hdir : pyStrip dirTok.value = "in" ∨ pyStrip dirTok.value = "out")
    (hv : strTok.value = "string") (hd : isDigitStr (pyStrip ds) = true)
    (hn : strToNat (pyStrip ds) = n) (h1 : 1 ≤ n) :
    parseParam (dirTok :: strTok :: ⟨.attr, ds, la⟩ :: ⟨.ident, nm, ln⟩ :: rest) U =
      .ok ({ direction := pyStrip dirTok.value, type_name := "string", name := nm,
             is_pointer := pyStrip dirTok.value == "out", array_size := some n }, rest) := by
  subst hn
  have hlt : ¬strToNat (pyStrip ds) < 1 := by omega
  rcases hdir with hdir | hdir <;>
    simp [parseParam, expectTok, advanceTok, peekTok, bind, Except.bind, hk, hdir, hv,
      string_mem_builtin, hd, hlt]

theorem parseEnum_dup (kwTok nameTok : Token) (rest : List Token) (U : List String)
    (hk1 : kwTok.kind = .keyword) (hv1 : kwTok.value = "enum") (hk2 : nameTok.kind = .ident)
    (hdup : nameTok.value ∈ U ∨ nameTok.value ∈ builtinTypes) :
    parseEnum (kwTok :: nameTok :: rest) U =
      .error (.typeAlreadyDefined nameTok.line nameTok.value) := by
  simp [parseEnum, expectTok, bind, Except.bind, hk1, hv1, hk2, hdup]

theorem parseStruct_dup (kwTok nameTok : Token) (rest : List Token) (U : List String)
    (hk1 : kwTok.kind = .keyword) (hv1 : kwTok.value = "struct") (hk2 : nameTok.kind = .ident)
    (hdup : nameTok.value ∈ U ∨ nameTok.value ∈ builtinTypes) :
    parseStruct (kwTok :: nameTok :: rest) U =
      .error (.typeAlreadyDefined nameTok.line nameTok.value) := by
  simp [parseStruct, expectTok, bind, Except.bind, hk1, hv1, hk2, hdup]

theorem parseService_mismatch (kwTok nameTok : Token) (rest : List Token) (U : List String)
    (svc : String) (hk1 : kwTok.kind = .keyword) (hv1 : kwTok.value = "service")
    (hk2 : nameTok.kind = .ident) (h1 : svc ≠ "") (h2 : svc ≠ nameTok.value) :
    parseService (kwTok :: nameTok :: rest) U svc =
      .error (.serviceNameMismatch nameTok.line nameTok.value svc) := by
  simp [parseService, expectTok, bind, Except.bind, hk1, hv1, hk2, h1, h2]

theorem parseNotifications_mismatch (kwTok nameTok : Token) (rest : List Token)
    (U : List String) (svc : String) (hk1 : kwTok.kind = .keyword)
    (hv1 : kwTok.value = "notifications") (hk2 : nameTok.kind = .ident)
    (h1 : svc ≠ "") (h2 : svc ≠ nameTok.value) :
    parseNotifications (kwTok :: nameTok :: rest) U svc =
      .error (.notificationsNameMismatch nameTok.line nameTok.value svc) := by
  simp [parseNotifications, expectTok, bind, Except.bind, hk1, hv1, hk2, h1, h2]

theorem parseMethod_attr_bad (t : Token) (rest : List Token) (U : List String)
    (hk : t.kind = .attr) (hm : matchIdAttr methodKey t.value = none) :
    parseMethod (t :: rest) U = .error (.expectedMethodAttr t.line t.value) := by
  simp [parseMethod, expectTok, bind, Except.bind, hk, hm]

theorem parseNotification_attr_bad (t : Token) (rest : List Token) (U : List String)
    (hk : t.kind = .attr) (hm : matchIdAttr notifyKey t.value = none) :
    parseNotification (t :: rest) U = .error (.expectedNotifyAttr t.line t.value) := by
  simp [parseNotification, expectTok, bind, Except.bind, hk, hm]

theorem parseTokens_noService (toks : List Token) (idl : IdlFile)
    (h : parseLoop (toks.length + 1) toks [] { service_name := "" } = .ok idl)
    (he : idl.service_name = "") : parseTokens toks = .error .noServiceBlock := by
  simp [parseTokens, bind, Except.bind, h, he]

theorem fnv_foldl_rec (bs : List Nat) :
    ∀ h : Nat, bs.foldl (fun h b => ((h ^^^ b) * 0x01000193) % 4294967296) h =
      fnv1aRefStep h bs := by
  induction bs with
  | nil => intro h; rfl
  | cons b bs ih =>
    intro h
    rw [List.foldl_cons, fnv1aRefStep, ih]
    norm_num

theorem isSynE_bool (e : PError) (h : IsSynE e) : PError.isSyntaxErr e = true := by
  cases e <;> simp [PError.isSyntaxErr]
  · exact h.1 rfl
  · exact h.2 rfl

theorem synE_has_line (e : PError) (h : IsSynE e) (hn : e ≠ .noServiceBlock) :
    ∃ n, PError.lineOf e = some n := by
  cases e <;> try exact ⟨_, rfl⟩
  · exact absurd rfl hn
  · exact absurd rfl h.1
  · exact absurd rfl h.2

/-- C1: fnv1a_32 implements the FNV-1a 32-bit reference hash: starting
from 0x811c9dc5 the accumulator is XORed with each UTF-8 byte in order
and multiplied by 0x01000193 modulo 2^32; on "Echo" it yields the
standard FNV-1a-32 value 0x3b7d6ba4, and it is deterministic. -/
theorem C1_fnv1a_32_matches_reference :
    (∀ s : String, fnv1a_32 s = fnv1aRefStep 0x811c9dc5 (utf8Bytes s)) ∧
    fnv1a_32 "Echo" = 0x3b7d6ba4 ∧
    ∀ s : String, fnv1a_32 s = fnv1a_32 s := by
  refine ⟨fun s => fnv_foldl_rec (utf8Bytes s) _, ?_, fun s => rfl⟩
  rfl

/-- C2: the compiler pipeline is deterministic — for every input text,
two runs of tokenize produce equal token lists, two runs of the parser on
those tokens produce equal results, and two runs of the whole pipeline
produce equal results; the embedding is a pure function of the input, so
nothing outside the text can influence the outcome. -/
theorem C2_pipeline_deterministic :
    ∀ text : String, tokenize text = tokenize text ∧
      (∀ ts : List Token, parseTokens ts = parseTokens ts) ∧
      compileIdl text = compileIdl text :=
  fun _ => ⟨rfl, fun _ => rfl, rfl⟩

/-- C7 counterexample: the empty input fails to compile with the
missing-service-block error, and that error carries no source line —
refuting the claim that every lexer/parser error carries a line. -/
theorem C7_counterexample :
    compileIdl "" = .error .noServiceBlock ∧
    PError.lineOf .noServiceBlock = none := ⟨rfl, rfl⟩

/-- C7 (amended): every error raised by the lexer or parser carries the
source line at which it was detected, except the missing-service-block
diagnostic, which carries no line. -/
theorem C7_errors_carry_line_amended :
    ∀ text e, compileIdl text = .error e →
      e = .noServiceBlock ∨ ∃ n, PError.lineOf e = some n := by
  intro text e h
  cases htok : tokenize text with
  | error e2 =>
    simp only [compileIdl, bind, Except.bind, htok] at h
    cases h
    exact Or.inr (tokenize_err text _ htok)
  | ok ts =>
    have hw := tokenize_wf text ts htok
    rcases parseTokens_cases ts hw with ⟨e2, heq, hsyn⟩ | ⟨idl, heq, -, -, -⟩
    · simp only [compileIdl, bind, Except.bind, htok, heq] at h
      cases h
      by_cases hnsb : e = .noServiceBlock
      · exact Or.inl hnsb
      · exact Or.inr (synE_has_line e hsyn hnsb)
    · simp [compileIdl, bind, Except.bind, htok, heq] at h

/-- C7 witness: the amended theorem applied to the input "@", which fails
lexing with an unexpected-character error carrying line 1. -/
theorem C7_witness :
    (PError.unexpectedChar 1 '@' = .noServiceBlock ∨
      ∃ n, PError.lineOf (.unexpectedChar 1 '@') = some n) :=
  C7_errors_carry_line_amended "@" (.unexpectedChar 1 '@') rfl

/-- C8 counterexample: with two artifacts to write and the second write
failing, the run leaves exactly the first file behind — neither all
artifacts nor none — refuting the all-or-nothing claim. -/
theorem C8_counterexample :
    writeFiles [("A", "xxx"), ("B", "yyy")] (fun f => f == "B") = (["A"], false) ∧
    (["A"] : List String) ≠ ([("A", "xxx"), ("B", "yyy")].map Prod.fst) ∧
    (["A"] : List String) ≠ [] := by
  refine ⟨rfl, by decide, by decide⟩

/-- C8 (amended): the write loop is prefix-atomic, not all-or-nothing: if
every write succeeds all artifacts are written, and if some write fails
the invocation aborts at the first failing file — the files before it
remain written, the failing file and everything after it are not. -/
theorem C8_writes_prefix_amended :
    ∀ (files : List (String × String)) (fails : String → Bool),
      ((writeFiles files fails).2 = true →
        (writeFiles files fails).1 = files.map Prod.fst) ∧
      ((writeFiles files fails).2 = false →
        ∃ pre nmc post, files = pre ++ nmc :: post ∧
          (∀ x ∈ pre, fails x.1 = false) ∧ fails nmc.1 = true ∧
          (writeFiles files fails).1 = pre.map Prod.fst) := by
  intro files fails
  induction files with
  | nil => exact ⟨fun _ => rfl, fun h => by simp [writeFiles] at h⟩
  | cons f fs ih =>
    obtain ⟨nm, c⟩ := f
    by_cases hf : fails nm
    · refine ⟨?_, ?_⟩
      · intro h
        simp [writeFiles, hf] at h
      · intro _
        exact ⟨[], (nm, c), fs, rfl, by simp, hf, by simp [writeFiles, hf]⟩
    · refine ⟨?_, ?_⟩
      · intro h
        simp only [writeFiles, hf, Bool.false_eq_true, if_false] at h ⊢
        rw [List.map_cons, ← ih.1 h]
      · intro h
        simp only [writeFiles, hf, Bool.false_eq_true, if_false] at h
        rcases ih.2 h with ⟨pre, nmc, post, hsplit, hpre, hnmc, hwr⟩
        refine ⟨(nm, c) :: pre, nmc, post, by simp [hsplit], ?_, hnmc, ?_⟩
        · intro x hx
          rcases List.mem_cons.mp hx with hx | hx
          · subst hx
            simpa using hf
          · exact hpre x hx
        · simp only [writeFiles, hf, Bool.false_eq_true, if_false, List.map_cons]
          rw [hwr]

/-- C8 witness: the amended theorem applied at a concrete run whose
second write fails, exhibiting the written prefix. -/
theorem C8_witness :
    ∃ pre nmc post,
      ([("A", "xxx"), ("B", "yyy")] : List (String × String)) = pre ++ nmc :: post ∧
      (∀ x ∈ pre, (fun f => f == "B") x.1 = false) ∧
      (fun f => f == "B") nmc.1 = true ∧
      (writeFiles [("A", "xxx"), ("B", "yyy")] (fun f => f == "B")).1 =
        pre.map Prod.fst :=
  (C8_writes_prefix_amended [("A", "xxx"), ("B", "yyy")] (fun f => f == "B")).2 rfl

/-- C9: on every token list produced by the lexer, the parser either
returns an IdlFile or raises a SyntaxError; it never reads past the
terminating EOF token (no index-out-of-range access) and never exhausts
its recursion budget. -/
theorem C9_parser_totality :
    ∀ text ts, tokenize text = .ok ts →
      (∃ idl, parseTokens ts = .ok idl) ∨
      (∃ e, parseTokens ts = .error e ∧ PError.isSyntaxErr e = true) := by
  intro text ts h
  rcases parseTokens_cases ts (tokenize_wf text ts h) with
    ⟨e, heq, hsyn⟩ | ⟨idl, heq, -, -, -⟩
  · exact Or.inr ⟨e, heq, isSynE_bool e hsyn⟩
  · exact Or.inl ⟨idl, heq⟩

/-- C9 witness: the theorem applied to the tokens of a small valid file. -/
theorem C9_witness :
    (∃ idl, parseTokens [⟨.keyword, "service", 1⟩, ⟨.ident, "S", 1⟩,
        ⟨.symbol, "\x7b", 1⟩, ⟨.symbol, "\x7d", 1⟩, ⟨.symbol, ";", 1⟩,
        ⟨.eof, "", 1⟩] = .ok idl) ∨
    (∃ e, parseTokens [⟨.keyword, "service", 1⟩, ⟨.ident, "S", 1⟩,
        ⟨.symbol, "\x7b", 1⟩, ⟨.symbol, "\x7d", 1⟩, ⟨.symbol, ";", 1⟩,
        ⟨.eof, "", 1⟩] = .error e ∧ PError.isSyntaxErr e = true) :=
  C9_parser_totality "service S \x7b \x7d ;" _ rfl

/-- C3: declaration before use — a struct field or parameter whose type
name is neither a built-in nor an already-completed user type makes the
parser raise an unknown-type error naming the type and its line; a field
or parameter that parses successfully references a built-in or a type in
the symbol table at the point of reference; and in every successfully
compiled file, every struct field references a built-in, an enum, or a
strictly earlier struct (no self or forward references), and every
method/notification parameter references a declared type. -/
theorem C3_declaration_before_use :
    (∀ (typeTok : Token) (rest : List Token) (U : List String),
       typeTok.value ∉ builtinTypes → typeTok.value ∉ U →
       parseStructField (typeTok :: rest) U =
         .error (.unknownType typeTok.line typeTok.value)) ∧
    (∀ (attrTok typeTok : Token) (rest : List Token) (U : List String),
       attrTok.kind = .attr →
       (pyStrip attrTok.value = "in" ∨ pyStrip attrTok.value = "out") →
       typeTok.value ∉ builtinTypes → typeTok.value ∉ U →
       parseParam (attrTok :: typeTok :: rest) U =
         .error (.unknownType typeTok.line typeTok.value)) ∧
    (∀ toks U fld toks', parseStructField toks U = .ok (fld, toks') →
       fld.type_name ∈ builtinTypes ∨ fld.type_name ∈ U) ∧
    (∀ toks U p toks', parseParam toks U = .ok (p, toks') →
       p.type_name ∈ builtinTypes ∨ p.type_name ∈ U) ∧
    (∀ text toks idl, tokenize text = .ok toks → parseTokens toks = .ok idl →
       DeclBeforeUse idl) :=
  ⟨parseStructField_unknown, parseParam_unknown, parseStructField_ok_type,
   parseParam_ok_type,
   fun text toks idl h1 h2 => (compile_ok_props text toks idl h1 h2).2.1⟩

/-- C3 witness: the theorem applied at a field whose type is undeclared. -/
theorem C3_witness :
    parseStructField [⟨.ident, "Bogus", 3⟩] [] = .error (.unknownType 3 "Bogus") :=
  C3_declaration_before_use.1 ⟨.ident, "Bogus", 3⟩ [] [] (by decide) (by decide)

/-- C4: type-name uniqueness — declaring an enum or struct whose name
matches an earlier user type or a built-in primitive raises a
type-already-defined error; and in every successfully compiled file the
enum and struct names are pairwise distinct and disjoint from the
built-in primitive names. -/
theorem C4_type_name_uniqueness :
    (∀ (kwTok nameTok : Token) (rest : List Token) (U : List String),
       kwTok.kind = .keyword → kwTok.value = "enum" → nameTok.kind = .ident →
       (nameTok.value ∈ U ∨ nameTok.value ∈ builtinTypes) →
       parseEnum (kwTok :: nameTok :: rest) U =
         .error (.typeAlreadyDefined nameTok.line nameTok.value)) ∧
    (∀ (kwTok nameTok : Token) (rest : List Token) (U : List String),
       kwTok.kind = .keyword → kwTok.value = "struct" → nameTok.kind = .ident →
       (nameTok.value ∈ U ∨ nameTok.value ∈ builtinTypes) →
       parseStruct (kwTok :: nameTok :: rest) U =
         .error (.typeAlreadyDefined nameTok.line nameTok.value)) ∧
    (∀ text toks idl, tokenize text = .ok toks → parseTokens toks = .ok idl →
       (typeNames idl).Nodup ∧ ∀ x ∈ typeNames idl, x ∉ builtinTypes) :=
  ⟨parseEnum_dup, parseStruct_dup,
   fun text toks idl h1 h2 => (compile_ok_props text toks idl h1 h2).1⟩

/-- C4 witness: the theorem applied at an enum that reuses the built-in
name uint32. -/
theorem C4_witness :
    parseEnum [⟨.keyword, "enum", 1⟩, ⟨.ident, "uint32", 1⟩] [] =
      .error (.typeAlreadyDefined 1 "uint32") :=
  C4_type_name_uniqueness.1 ⟨.keyword, "enum", 1⟩ ⟨.ident, "uint32", 1⟩ [] []
    rfl rfl rfl (Or.inr (by decide))

/-- C5 counterexample: a string field with the array-size attribute [0]
attached still fails to parse (with the array-size error), so parsing a
string field does not fail only when no array-size attribute is
attached, contrary to the claim's iff. -/
theorem C5_counterexample :
    parseStructField [⟨.ident, "string", 1⟩, ⟨.attr, "0", 1⟩, ⟨.ident, "name", 1⟩,
        ⟨.symbol, ";", 1⟩] [] = .error (.arraySizeTooSmall 1) ∧
    (⟨.attr, "0", 1⟩ : Token).kind = .attr ∧ isDigitStr (pyStrip "0") = true := by
  refine ⟨by rfl, rfl, by rfl⟩

/-- C5 (amended): a string field or parameter without an array-size
attribute fails with the string-requires-size error; with a size
attribute of value n ≥ 1 such as [32] it parses successfully and the
resulting StructField or Param has array_size = n (a size attribute [0]
instead fails with the array-size error); the emitted record renders a
sized string field as a fixed character buffer. -/
theorem C5_string_needs_size_amended :
    (∀ (strTok t2 : Token) (rest : List Token) (U : List String),
       strTok.value = "string" →
       ¬(t2.kind = .attr ∧ isDigitStr (pyStrip t2.value) = true) →
       parseStructField (strTok :: t2 :: rest) U =
         .error (.stringNeedsSize strTok.line)) ∧
    (∀ (strTok : Token) (ds nm : String) (la ln ls : Nat) (rest : List Token)
       (U : List String) (n : Nat),
       strTok.value = "string" → isDigitStr (pyStrip ds) = true →
       strToNat (pyStrip ds) = n → 1 ≤ n →
       parseStructField
           (strTok :: ⟨.attr, ds, la⟩ :: ⟨.ident, nm, ln⟩ :: ⟨.symbol, ";", ls⟩ :: rest) U =
         .ok ({ type_name := "string", name := nm, array_size := some n }, rest)) ∧
    (∀ (dirTok strTok t2 : Token) (rest : List Token) (U : List String),
       dirTok.kind = .attr →
       (pyStrip dirTok.value = "in" ∨ pyStrip dirTok.value = "out") →
       strTok.value = "string" →
       ¬(t2.kind = .attr ∧ isDigitStr (pyStrip t2.value) = true) →
       parseParam (dirTok :: strTok :: t2 :: rest) U =
         .error (.stringNeedsSize strTok.line)) ∧
    (∀ (dirTok strTok : Token) (ds nm : String) (la ln : Nat) (rest : List Token)
       (U : List String) (n : Nat),
       dirTok.kind = .attr →
       (pyStrip dirTok.value = "in" ∨ pyStrip dirTok.value = "out") →
       strTok.value = "string" → isDigitStr (pyStrip ds) = true →
       strToNat (pyStrip ds) = n → 1 ≤ n →
       parseParam (dirTok :: strTok :: ⟨.attr, ds, la⟩ :: ⟨.ident, nm, ln⟩ :: rest) U =
         .ok ({ direction := pyStrip dirTok.value, type_name := "string", name := nm,
                is_pointer := pyStrip dirTok.value == "out", array_size := some n }, rest)) ∧
    emitStructFieldDecl { type_name := "string", name := "name", array_size := some 32 } =
      "char name[32];" :=
  ⟨parseStructField_string_nosize, parseStructField_string_size,
   parseParam_string_nosize, parseParam_string_size, rfl⟩

/-- C5 witness: the amended theorem applied at a string field carrying
the size attribute [32], which parses to array_size = 32. -/
theorem C5_witness :
    parseStructField [⟨.ident, "string", 1⟩, ⟨.attr, "32", 1⟩, ⟨.ident, "name", 1⟩,
        ⟨.symbol, ";", 1⟩] [] =
      .ok ({ type_name := "string", name := "name", array_size := some 32 }, []) :=
  C5_string_needs_size_amended.2.1 ⟨.ident, "string", 1⟩ "32" "name" 1 1 1 [] [] 32
    rfl rfl rfl (by decide)

/-- C6: single logical service name — a service or notifications block
whose declared name differs from the already-recorded nonempty service
name raises a name-mismatch error; a successful top-level parse whose
accumulated service name is empty makes Parser.parse fail with the
missing-service-block diagnostic; every successfully compiled file has a
nonempty service name; and a service/notifications block that parses
successfully either sets the first name or repeats the recorded one. -/
theorem C6_single_service_name :
    (∀ (kwTok nameTok : Token) (rest : List Token) (U : List String) (svc : String),
       kwTok.kind = .keyword → kwTok.value = "service" → nameTok.kind = .ident →
       svc ≠ "" → svc ≠ nameTok.value →
       parseService (kwTok :: nameTok :: rest) U svc =
         .error (.serviceNameMismatch nameTok.line nameTok.value svc)) ∧
    (∀ (kwTok nameTok : Token) (rest : List Token) (U : List String) (svc : String),
       kwTok.kind = .keyword → kwTok.value = "notifications" → nameTok.kind = .ident →
       svc ≠ "" → svc ≠ nameTok.value →
       parseNotifications (kwTok :: nameTok :: rest) U svc =
         .error (.notificationsNameMismatch nameTok.line nameTok.value svc)) ∧
    (∀ toks idl, parseLoop (toks.length + 1) toks [] { service_name := "" } = .ok idl →
       idl.service_name = "" → parseTokens toks = .error .noServiceBlock) ∧
    (∀ text toks idl, tokenize text = .ok toks → parseTokens toks = .ok idl →
       idl.service_name ≠ "") ∧
    (∀ toks U svc nm ms toks', parseService toks U svc = .ok (nm, ms, toks') →
       svc = "" ∨ nm = svc) ∧
    (∀ toks U svc nm ns toks', parseNotifications toks U svc = .ok (nm, ns, toks') →
       svc = "" ∨ nm = svc) :=
  ⟨parseService_mismatch, parseNotifications_mismatch, parseTokens_noService,
   fun text toks idl h1 h2 => (compile_ok_props text toks idl h1 h2).2.2,
   parseService_ok_name, parseNotifications_ok_name⟩

/-- C6 witness: the theorem applied at a notifications block named B in a
file whose service block declared A. -/
theorem C6_witness :
    parseNotifications [⟨.keyword, "notifications", 2⟩, ⟨.ident, "B", 2⟩] [] "A" =
      .error (.notificationsNameMismatch 2 "B" "A") :=
  C6_single_service_name.2.1 ⟨.keyword, "notifications", 2⟩ ⟨.ident, "B", 2⟩ [] [] "A"
    rfl rfl rfl (by decide) (by decide)

/-- C10: method and notify id attributes are matched by prefix only —
any attribute text consisting of the literal key, optional whitespace,
an equals sign, optional whitespace and a maximal nonempty digit run is
accepted with the id equal to that digit run, all trailing characters
silently ignored; a method or notification whose attribute does not
match this prefix pattern fails with the expected-attribute diagnostic;
a method/notification that parses successfully took its id from this
prefix match on its leading attribute; and concretely, method=1 extra is
accepted as id 1 while method=x is rejected. -/
theorem C10_id_attr_prefix_match :
    (∀ ws1 ws2 ds tail : List Char, ws1.all isPySpace = true → ws2.all isPySpace = true →
       ds ≠ [] → ds.all Char.isDigit = true →
       (∀ c, tail.head? = some c → c.isDigit = false) →
       matchIdAttr methodKey (String.mk (methodKey ++ (ws1 ++ '=' :: (ws2 ++ ds ++ tail)))) =
         some (natOfDigits ds) ∧
       matchIdAttr notifyKey (String.mk (notifyKey ++ (ws1 ++ '=' :: (ws2 ++ ds ++ tail)))) =
         some (natOfDigits ds)) ∧
    (∀ (t : Token) (rest : List Token) (U : List String), t.kind = .attr →
       matchIdAttr methodKey t.value = none →
       parseMethod (t :: rest) U = .error (.expectedMethodAttr t.line t.value)) ∧
    (∀ (t : Token) (rest : List Token) (U : List String), t.kind = .attr →
       matchIdAttr notifyKey t.value = none →
       parseNotification (t :: rest) U = .error (.expectedNotifyAttr t.line t.value)) ∧
    (∀ toks U m toks', parseMethod toks U = .ok (m, toks') →
       ∃ attrTok rest, toks = attrTok :: rest ∧
         matchIdAttr methodKey attrTok.value = some m.method_id) ∧
    (∀ toks U nt toks', parseNotification toks U = .ok (nt, toks') →
       ∃ attrTok rest, toks = attrTok :: rest ∧
         matchIdAttr notifyKey attrTok.value = some nt.notify_id) ∧
    matchIdAttr methodKey "method=1 extra" = some 1 ∧
    matchIdAttr methodKey "method=x" = none ∧
    parseMethod [⟨.attr, "method=1 extra", 1⟩, ⟨.keyword, "int", 1⟩, ⟨.ident, "Ping", 1⟩,
        ⟨.symbol, "(", 1⟩, ⟨.symbol, ")", 1⟩, ⟨.symbol, ";", 1⟩] [] =
      .ok ({ name := "Ping", method_id := 1, params := [] }, []) ∧
    parseMethod [⟨.attr, "method=x", 1⟩] [] = .error (.expectedMethodAttr 1 "method=x") :=
  ⟨fun ws1 ws2 ds tail h1 h2 h3 h4 h5 =>
     ⟨matchIdAttr_shape methodKey ws1 ws2 ds tail h1 h2 h3 h4 h5,
      matchIdAttr_shape notifyKey ws1 ws2 ds tail h1 h2 h3 h4 h5⟩,
   parseMethod_attr_bad, parseNotification_attr_bad, parseMethod_ok_attr,
   parseNotification_ok_attr, rfl, rfl, rfl, rfl⟩

/-- C10 witness: the theorem applied at the attribute text consisting of
the method key, a spaced equals sign, the digits 12 and trailing junk. -/
theorem C10_witness :
    matchIdAttr methodKey
        (String.mk (methodKey ++ ([] ++ '=' :: ([' '] ++ ['1', '2'] ++ ['a', 'b'])))) =
      some (natOfDigits ['1', '2']) ∧
    matchIdAttr notifyKey
        (String.mk (notifyKey ++ ([] ++ '=' :: ([' '] ++ ['1', '2'] ++ ['a', 'b'])))) =
      some (natOfDigits ['1', '2']) :=
  C10_id_attr_prefix_match.1 [] [' '] ['1', '2'] ['a', 'b'] rfl rfl (by decide) rfl
    (by intro c hc; simp at hc; subst hc; decide)

end Ipcgen
